import Mathlib

/-!
Verification development for the SDLC breakdown normalizer
(`src/utils/sdlc_parser.py`) and the Gantt exporter
(`src/utils/export_utils.py`).

Modelling conventions:
* Python/JSON values are modelled by the inductive `JValue`; JSON numbers
  (Python ints/floats) are modelled by the exact rational type `Q` below.
  Arithmetic is exact; Python's `round` builtin (round-half-to-even) is
  modelled by `pyRound` on the exact rational value of the expression
  being rounded.  (Every concrete rounding used in a theorem below has
  been checked to agree with CPython's float computation.)
* Python dicts are association lists with insertion-order semantics:
  assignment updates an existing key in place, otherwise appends.
* Python exceptions are modelled by `Except Unit`; `parse_ai_response`'s
  `try/except` catches them and degrades to the fallback structure.
* All definitions are structurally recursive so that closed theorems can
  be settled by kernel evaluation (`decide` / `rfl`).
-/

/-! ## Exact rationals with kernel-computable arithmetic -/

/-- Euclid's gcd with explicit fuel, structurally recursive so that the
kernel can evaluate it.  `ngcd f a b = Nat.gcd a b` whenever `a < f`. -/
def ngcd : Nat → Nat → Nat → Nat
  | 0, _, b => b
  | f + 1, a, b => if a = 0 then b else ngcd f (b % a) a

/-- Exact rational numbers: numerator and positive denominator, kept in
lowest terms by construction (`qNorm`). -/
structure Q where
  n : Int
  d : Int
deriving DecidableEq, Repr

/-- Normalize a fraction: positive denominator, lowest terms. -/
def qNorm (a b : Int) : Q :=
  if b = 0 then ⟨0, 1⟩ else
  let s : Int := if b < 0 then -1 else 1
  let a := s * a
  let b := s * b
  let g : Int := (ngcd (a.natAbs + 1) a.natAbs b.natAbs : Nat)
  if g = 0 then ⟨0, 1⟩ else ⟨a / g, b / g⟩

def Q.ofInt (i : Int) : Q := ⟨i, 1⟩

instance : IntCast Q := ⟨Q.ofInt⟩
instance : NatCast Q := ⟨fun n => Q.ofInt n⟩
instance : OfNat Q n := ⟨Q.ofInt n⟩
instance : Add Q := ⟨fun x y => qNorm (x.n * y.d + y.n * x.d) (x.d * y.d)⟩
instance : Sub Q := ⟨fun x y => qNorm (x.n * y.d - y.n * x.d) (x.d * y.d)⟩
instance : Mul Q := ⟨fun x y => qNorm (x.n * y.n) (x.d * y.d)⟩
instance : Neg Q := ⟨fun x => qNorm (-x.n) x.d⟩

/-- Division; division by zero yields 0 (never reached on the modelled
code paths: the Python source would raise `ZeroDivisionError`, and the
model guards those divisions explicitly). -/
instance : Div Q := ⟨fun x y => if y.n = 0 then ⟨0, 1⟩ else qNorm (x.n * y.d) (x.d * y.n)⟩

/-- Comparison by cross-multiplication (denominators are positive). -/
instance : LT Q := ⟨fun x y => x.n * y.d < y.n * x.d⟩
instance : LE Q := ⟨fun x y => x.n * y.d ≤ y.n * x.d⟩

instance (x y : Q) : Decidable (x < y) := by
  unfold instLTQ; exact inferInstanceAs (Decidable (_ < _))

instance (x y : Q) : Decidable (x ≤ y) := by
  unfold instLEQ; exact inferInstanceAs (Decidable (_ ≤ _))

/-- Floor of a rational (denominator positive, so `Int.fdiv` is floor). -/
def Q.floor (q : Q) : Int := Int.fdiv q.n q.d

/-- Python's `round` builtin on the exact rational value: round half to
even. -/
def pyRound (q : Q) : Int :=
  let f : Int := q.floor
  let r : Q := q - Q.ofInt f
  if r < (1 : Q) / 2 then f
  else if (1 : Q) / 2 < r then f + 1
  else if f % 2 = 0 then f else f + 1

/-! ## JSON / Python values -/

inductive JValue where
  | null
  | bool (b : Bool)
  | num (q : Q)
  | str (s : String)
  | arr (xs : List JValue)
  | obj (kvs : List (String × JValue))
deriving Repr

abbrev JDict := List (String × JValue)

/-- Python dict lookup `d[k]` / `d.get(k)`: first matching key. -/
def getKey? (kvs : JDict) (k : String) : Option JValue :=
  match kvs with
  | [] => none
  | (k', v) :: rest => if k' = k then some v else getKey? rest k

/-- Python dict membership `k in d`. -/
def hasKey (kvs : JDict) (k : String) : Bool :=
  (getKey? kvs k).isSome

/-- Python dict assignment `d[k] = v`: update in place if the key exists
(keeping its position), otherwise append. -/
def setKey (kvs : JDict) (k : String) (v : JValue) : JDict :=
  match kvs with
  | [] => [(k, v)]
  | (k', v') :: rest =>
    if k' = k then (k', v) :: rest else (k', v') :: setKey rest k v

/-- Python `d.setdefault(k, v)`. -/
def setDefault (kvs : JDict) (k : String) (v : JValue) : JDict :=
  if hasKey kvs k then kvs else kvs ++ [(k, v)]

/-- Python truthiness of a JSON-decoded value (`if not x`). -/
def isFalsy : JValue → Bool
  | .null => true
  | .bool b => !b
  | .num q => q = (0 : Q)
  | .str s => s == ""
  | .arr xs => xs.isEmpty
  | .obj kvs => kvs.isEmpty

/-- Numeric view of a value as used by Python arithmetic: numbers are
themselves, booleans are 0/1 (Python bool is an int subtype); everything
else raises a `TypeError` (modelled as `none`). -/
def numQ? : JValue → Option Q
  | .num q => some q
  | .bool b => some (if b then 1 else 0)
  | _ => none

/-- `phase.get('duration_weeks', 0)` followed by numeric use; `none`
models a `TypeError` on a non-numeric entry. -/
def durGet? (p : JDict) : Option Q :=
  numQ? ((getKey? p "duration_weeks").getD (.num 0))

/-- Same but defaulting to 0 (used only after a traversal has already
established that every phase's entry is numeric). -/
def durGetD (p : JDict) : Q :=
  (durGet? p).getD 0

/-- `phase['duration_weeks']` (direct indexing, `KeyError` when missing)
followed by numeric use. -/
def durIdx? (p : JDict) : Option Q :=
  (getKey? p "duration_weeks").bind numQ?

def durIdxD (p : JDict) : Q :=
  (durIdx? p).getD 0

/-- First-failure traversal, matching Python's left-to-right evaluation
order for generator expressions inside `sum`. -/
def traverseOpt (f : α → Option β) : List α → Option (List β)
  | [] => some []
  | x :: xs => do
    let y ← f x
    let ys ← traverseOpt f xs
    pure (y :: ys)

/-- Map with the element index, starting at `i`. -/
def mapIdxFrom (f : Nat → α → β) (i : Nat) : List α → List β
  | [] => []
  | x :: xs => f i x :: mapIdxFrom f (i + 1) xs

/-- Replace the element at index `i` (no-op when out of range). -/
def modifyIdx (l : List α) (i : Nat) (f : α → α) : List α :=
  mapIdxFrom (fun j x => if j = i then f x else x) 0 l

def sumQ (l : List Q) : Q := l.foldr (· + ·) 0

/-! ## `SDLCParser._create_default_phases` (sdlc_parser.py lines 175-238) -/

def defaultPhaseBase (nm desc : String) (dels acts : List String)
    (tf : String) : JDict :=
  [("name", .str nm), ("description", .str desc),
   ("deliverables", .arr (dels.map .str)),
   ("activities", .arr (acts.map .str)),
   ("team_focus", .str tf)]

def defaultPhaseTemplates : List JDict :=
  [defaultPhaseBase "Requirements Analysis & Planning"
      "Gather requirements, analyze feasibility, and create project plan"
      ["Requirements document", "Project plan", "Technical specifications"]
      ["Stakeholder interviews", "Requirements gathering", "Risk assessment"]
      "Business analysis and planning",
   defaultPhaseBase "System Design & Architecture"
      "Design system architecture, database schema, and technical specifications"
      ["System architecture document", "Database design", "UI/UX mockups"]
      ["System design", "Architecture planning", "Technology selection"]
      "System architects and designers",
   defaultPhaseBase "Development & Implementation"
      "Code development, feature implementation, and integration"
      ["Working software modules", "Code documentation", "Unit tests"]
      ["Coding", "Code reviews", "Module integration"]
      "Development team",
   defaultPhaseBase "Testing & Quality Assurance"
      "Comprehensive testing including unit, integration, and user acceptance testing"
      ["Test results", "Bug reports", "Test documentation"]
      ["Test execution", "Bug fixing", "Performance testing"]
      "QA and testing team",
   defaultPhaseBase "Deployment & Launch"
      "Production deployment, user training, and go-live activities"
      ["Production system", "User documentation", "Training materials"]
      ["Production deployment", "User training", "Go-live support"]
      "DevOps and support team"]

def typicalPercentages : List Int := [15, 20, 40, 20, 5]

/-- Lines 219-223: assign `duration_weeks = max(1, round(T*w/100))` and
`percentage = w` to each template phase. -/
def defaultPhasesInitial (T : Int) : List JDict :=
  (defaultPhaseTemplates.zip typicalPercentages).map (fun pw =>
    let d : Int := max 1 (pyRound ((T : Q) * (pw.2 : Q) / 100))
    setKey (setKey pw.1 "duration_weeks" (.num (d : Q)))
      "percentage" (.num (pw.2 : Q)))

/-- Lines 175-238: the full default-template construction, including the
difference adjustment on the third phase and the conditional percentage
recomputation. -/
def create_default_phases (T : Int) : List JDict :=
  let phases := defaultPhasesInitial T
  let total_allocated := sumQ (phases.map durGetD)
  let difference := (T : Q) - total_allocated
  if difference ≠ 0 then
    let phases := modifyIdx phases 2 (fun p =>
      setKey p "duration_weeks" (.num (durIdxD p + difference)))
    let total_weeks := sumQ (phases.map durGetD)
    phases.map (fun p =>
      setKey p "percentage" (.num (durIdxD p / total_weeks * 100)))
  else phases

/-! ## `SDLCParser._validate_and_clean` (sdlc_parser.py lines 57-110) -/

/-- Lines 80-86 and 164-170: the even-split-with-remainder duration for
phase index `i` out of `n` phases with target `T`
(`duration_per_phase = max(1, T // n)`, first `T - dpp*n` phases get one
extra week; Python `//` is floor division). -/
def evenSplitDuration (T : Int) (n : Nat) (i : Nat) : Int :=
  let dpp : Int := max 1 (Int.fdiv T (n : Int))
  let remaining : Int := T - dpp * (n : Int)
  dpp + (if (i : Int) < remaining then 1 else 0)

/-- Lines 73-77: proportional rescale of the durations by `T / S`,
rounded (Python `round`, half-even on the exact value), floored at 1. -/
def rescalePhases (phases : List JDict) (T : Int) (S : Q) : List JDict :=
  phases.map (fun p =>
    let d : Int := max 1 (pyRound (durGetD p * ((T : Q) / S)))
    setKey p "duration_weeks" (.num (d : Q)))

/-- Lines 78-86: even split across the phases. -/
def evenSplitPhases (phases : List JDict) (T : Int) : List JDict :=
  mapIdxFrom (fun i p =>
    setKey p "duration_weeks" (.num (evenSplitDuration T phases.length i : Q)))
    0 phases

/-- Lines 93-99: `setdefault` backfill of the descriptive fields. -/
def fillPhaseDefaults (p : JDict) : JDict :=
  setDefault (setDefault (setDefault (setDefault (setDefault p
    "name" (.str "Unnamed Phase"))
    "description" (.str "Phase description not available"))
    "deliverables" (.arr []))
    "activities" (.arr []))
    "team_focus" (.str "General development")

/-- Lines 102-108: the synthesized `project_summary`. -/
def defaultProjectSummary (T : Int) : JValue :=
  .obj [("name", .str "Software Project"),
        ("total_duration_weeks", .num (T : Q)),
        ("methodology", .str "Agile"),
        ("complexity_assessment", .str "Medium")]

/-- A phase value must be a dict for `phase.get` to work. -/
def jObj? : JValue → Option JDict
  | .obj p => some p
  | _ => none

/-- Lines 71-86 as one block: adjust the durations when their sum
differs from the target (rescale when positive, even split otherwise). -/
def adjustedPhases (phases : List JDict) (T : Int) (S : Q) : List JDict :=
  if S ≠ (T : Q) then
    if (0 : Q) < S then rescalePhases phases T S
    else evenSplitPhases phases T
  else phases

/-- Lines 90-91 and 93-99: assign the recomputed percentage, then
backfill the descriptive fields. -/
def finishPhase (total : Q) (p : JDict) : JDict :=
  fillPhaseDefaults (setKey p "percentage" (.num (durIdxD p / total * 100)))

/-- Lines 101-108: write the phase list back into the dict (the Python
list is mutated in place) and synthesize `project_summary` if absent. -/
def finishDict (kvs : JDict) (phases : List JDict) (T : Int) : JDict :=
  let kvs := setKey kvs "phases" (.arr (phases.map .obj))
  if hasKey kvs "project_summary" then kvs
  else setKey kvs "project_summary" (defaultProjectSummary T)

/-- Model of `SDLCParser._validate_and_clean` (lines 57-110).  `Except`
failures model the Python exceptions (`TypeError`/`AttributeError`/
`KeyError`/`ZeroDivisionError`) that `parse_ai_response` catches:
* a non-dict `data` raises at the membership test / item assignment /
  iteration (so does a dict whose truthy `phases` entry is not a list,
  when the duration sum iterates over it);
* a phase that is not a dict raises at `phase.get`;
* a non-numeric `duration_weeks` raises inside `sum`;
* a missing or non-numeric `duration_weeks` at line 89 raises
  (`KeyError`/`TypeError`, direct indexing there);
* a zero total at line 91 raises `ZeroDivisionError`.
Note line 66 returns the bare phase *list* (not a dict) when the phases
entry is empty/falsy, exactly as the source does. -/
def validate_and_clean (data : JValue) (T : Int) : Except Unit JValue :=
  match data with
  | .obj kvs0 =>
    -- lines 61-62: if 'phases' not in data: data['phases'] = []
    let kvs := if hasKey kvs0 "phases" then kvs0
               else setKey kvs0 "phases" (.arr [])
    let phasesV := (getKey? kvs "phases").getD .null
    -- lines 65-66: if not phases: return self._create_default_phases(...)
    if isFalsy phasesV then .ok (.arr ((create_default_phases T).map .obj))
    else match phasesV with
      | .arr ps =>
        match traverseOpt jObj? ps with
        | none => .error ()
        | some phases =>
          -- line 69: total_weeks = sum(phase.get('duration_weeks', 0) ...)
          match traverseOpt durGet? phases with
          | none => .error ()
          | some ds =>
            -- lines 71-86
            let phases := adjustedPhases phases T (sumQ ds)
            -- lines 88-89: total_weeks = sum(phase['duration_weeks'] ...)
            match traverseOpt durIdx? phases with
            | none => .error ()
            | some ds2 =>
              let total := sumQ ds2
              if total = 0 then .error ()
              else .ok (.obj (finishDict kvs (phases.map (finishPhase total)) T))
      | _ => .error ()
  | _ => .error ()

/-! ## A small backtracking regex engine

Models the fragment of Python `re` used by the parser (all calls pass
`re.DOTALL` or `re.IGNORECASE` as noted at each pattern).  Matching is
leftmost with Python's backtracking preference order (greedy `*` tries
longest first, lazy `*?` shortest first).  `r+` and `r?` are encoded as
`seq r (star r)` and `opt r`. -/

inductive RE where
  | lit (s : List Char) (ci : Bool)
  | cls (p : Char → Bool)
  | seq (a b : RE)
  | star (r : RE) (greedy : Bool)
  | opt (r : RE) (greedy : Bool)
  | grp (n : Nat) (r : RE)

abbrev Caps := List (Nat × List Char)

/-- Match a literal (optionally case-insensitively), returning the rest. -/
def stripLit : List Char → Bool → List Char → Option (List Char)
  | [], _, cs => some cs
  | l :: ls, ci, c :: cs =>
    if (if ci then l.toLower = c.toLower else l = c) then stripLit ls ci cs
    else none
  | _ :: _, _, [] => none

/-- Iterate a sub-matcher for `star`, fuelled by the input length.
Zero-width iterations stop the loop (as Python's engine does). -/
def starLoop {α : Type} (m : List Char → (List Char → Caps → Option α) → Caps → Option α)
    (greedy : Bool) : Nat → List Char → (List Char → Caps → Option α) → Caps → Option α
  | 0, cs, k, caps => k cs caps
  | fuel + 1, cs, k, caps =>
    let more := m cs (fun cs' caps' =>
      if cs'.length < cs.length then starLoop m greedy fuel cs' k caps'
      else k cs' caps') caps
    if greedy then more <|> k cs caps else k cs caps <|> more

/-- CPS backtracking matcher: try to match `re` at the head of `cs`,
passing the remainder and captures to the continuation; `none` from the
continuation causes backtracking. -/
def matchRE {α : Type} : RE → List Char → (List Char → Caps → Option α) → Caps → Option α
  | .lit s ci, cs, k, caps =>
    match stripLit s ci cs with
    | some rest => k rest caps
    | none => none
  | .cls p, cs, k, caps =>
    match cs with
    | [] => none
    | c :: rest => if p c then k rest caps else none
  | .seq a b, cs, k, caps =>
    matchRE a cs (fun cs' caps' => matchRE b cs' k caps') caps
  | .star r greedy, cs, k, caps =>
    starLoop (matchRE r) greedy (cs.length + 1) cs k caps
  | .opt r greedy, cs, k, caps =>
    if greedy then matchRE r cs k caps <|> k cs caps
    else k cs caps <|> matchRE r cs k caps
  | .grp n r, cs, k, caps =>
    matchRE r cs (fun cs' caps' =>
      k cs' ((n, cs.take (cs.length - cs'.length)) :: caps')) caps

/-- `re.findall` scan: try a match at every position, left to right,
non-overlapping; collect `(whole match, captures)`.  Fuelled by the
input length. -/
def findallGo (re : RE) : Nat → List Char → List (List Char × Caps)
  | 0, _ => []
  | fuel + 1, cs =>
    match matchRE re cs (fun rest caps => some (rest, caps)) [] with
    | some (rest, caps) =>
      (cs.take (cs.length - rest.length), caps) ::
        (if rest.length < cs.length then findallGo re fuel rest
         else match cs with
           | [] => []
           | _ :: cs' => findallGo re fuel cs')
    | none =>
      match cs with
      | [] => []
      | _ :: cs' => findallGo re fuel cs'

/-- The groups of one match as Python `findall` reports them: the whole
match when the pattern has no groups, otherwise groups `1..g`. -/
def matchGroups (g : Nat) (whole : List Char) (caps : Caps) : List String :=
  if g = 0 then [String.mk whole]
  else (List.range g).map (fun i =>
    String.mk ((((caps.find? (fun c => c.1 = i + 1))).map (fun c => c.2)).getD []))

def reFindall (re : RE) (groups : Nat) (s : String) : List (List String) :=
  (findallGo re (s.length + 1) s.data).map (fun m => matchGroups groups m.1 m.2)

/-! Character classes (`re.DOTALL` makes `.` match everything; the
Python classes are used on ASCII inputs here). -/

def pyAny : Char → Bool := fun _ => true
def pyDigit : Char → Bool := Char.isDigit
def pySpace : Char → Bool := fun c =>
  c == ' ' || c == '\t' || c == '\n' || c == '\r' || c == '\x0b' || c == '\x0c'
def notColonNL : Char → Bool := fun c => !(c == ':') && !(c == '\n')
def pyAlpha : Char → Bool := Char.isAlpha

def rePlus (r : RE) (greedy : Bool) : RE := .seq r (.star r greedy)

/-! The three JSON-extraction patterns of
`_extract_json_from_response` (lines 32-36), all under `re.DOTALL`. -/

/-- The pattern `\{.*\}` (greedy, DOTALL), no groups. -/
def reBrace : RE :=
  .seq (.lit ['{'] false) (.seq (.star (.cls pyAny) true) (.lit ['}'] false))

/-- Fenced block tagged `json` with a lazy brace group. -/
def reJsonFence : RE :=
  .seq (.lit "```json".data false)
    (.seq (.star (.cls pySpace) true)
      (.seq (.grp 1 (.seq (.lit ['{'] false)
          (.seq (.star (.cls pyAny) false) (.lit ['}'] false))))
        (.seq (.star (.cls pySpace) true) (.lit "```".data false))))

/-- Generic fenced block with a lazy brace group. -/
def reFence : RE :=
  .seq (.lit "```".data false)
    (.seq (.star (.cls pySpace) true)
      (.seq (.grp 1 (.seq (.lit ['{'] false)
          (.seq (.star (.cls pyAny) false) (.lit ['}'] false))))
        (.seq (.star (.cls pySpace) true) (.lit "```".data false))))

/-! The three textual phase patterns of `_extract_phases_from_text`
(lines 142-146), all under `re.IGNORECASE` (which turns `[A-Z]` into any
letter and makes the literals case-insensitive). -/

/-- `r'(\d+)\.\s*([^:\n]+):\s*([^:\n]+)'`, 3 groups. -/
def reNumbered : RE :=
  .seq (.grp 1 (rePlus (.cls pyDigit) true))
    (.seq (.lit ['.'] false)
      (.seq (.star (.cls pySpace) true)
        (.seq (.grp 2 (rePlus (.cls notColonNL) true))
          (.seq (.lit [':'] false)
            (.seq (.star (.cls pySpace) true)
              (.grp 3 (rePlus (.cls notColonNL) true)))))))

/-- `r'([A-Z][^:\n]+):\s*(\d+)\s*weeks?'` (IGNORECASE), 2 groups. -/
def reNameWeeks : RE :=
  .seq (.grp 1 (.seq (.cls pyAlpha) (rePlus (.cls notColonNL) true)))
    (.seq (.lit [':'] false)
      (.seq (.star (.cls pySpace) true)
        (.seq (.grp 2 (rePlus (.cls pyDigit) true))
          (.seq (.star (.cls pySpace) true)
            (.seq (.lit "week".data true) (.opt (.lit ['s'] true) true))))))

/-- `r'Phase\s*\d*:\s*([^:\n]+)'` (IGNORECASE), 1 group. -/
def rePhaseName : RE :=
  .seq (.lit "Phase".data true)
    (.seq (.star (.cls pySpace) true)
      (.seq (.star (.cls pyDigit) true)
        (.seq (.lit [':'] false)
          (.seq (.star (.cls pySpace) true)
            (.grp 1 (rePlus (.cls notColonNL) true))))))

/-! ## Model of `json.loads` (strict JSON, exact numbers) -/

def jsonWs : Char → Bool := fun c =>
  c == ' ' || c == '\t' || c == '\n' || c == '\r'

def skipJWs : List Char → List Char
  | [] => []
  | c :: cs => if jsonWs c then skipJWs cs else c :: cs

def hexVal? (c : Char) : Option Nat :=
  if c.isDigit then some (c.toNat - '0'.toNat)
  else if 'a' ≤ c ∧ c ≤ 'f' then some (c.toNat - 'a'.toNat + 10)
  else if 'A' ≤ c ∧ c ≤ 'F' then some (c.toNat - 'A'.toNat + 10)
  else none

/-- JSON string body after the opening quote: content chars and the rest
after the closing quote.  Raw control characters are rejected (strict
mode), escapes are decoded. -/
def parseStrChars : List Char → Option (List Char × List Char)
  | [] => none
  | '"' :: rest => some ([], rest)
  | '\\' :: e :: rest =>
    match e with
    | '"' => (parseStrChars rest).map (fun r => ('"' :: r.1, r.2))
    | '\\' => (parseStrChars rest).map (fun r => ('\\' :: r.1, r.2))
    | '/' => (parseStrChars rest).map (fun r => ('/' :: r.1, r.2))
    | 'b' => (parseStrChars rest).map (fun r => ('\x08' :: r.1, r.2))
    | 'f' => (parseStrChars rest).map (fun r => ('\x0c' :: r.1, r.2))
    | 'n' => (parseStrChars rest).map (fun r => ('\n' :: r.1, r.2))
    | 'r' => (parseStrChars rest).map (fun r => ('\r' :: r.1, r.2))
    | 't' => (parseStrChars rest).map (fun r => ('\t' :: r.1, r.2))
    | 'u' =>
      match rest with
      | a :: b :: c :: d :: rest' =>
        match hexVal? a, hexVal? b, hexVal? c, hexVal? d with
        | some ha, some hb, some hc, some hd =>
          (parseStrChars rest').map (fun r =>
            (Char.ofNat (((ha * 16 + hb) * 16 + hc) * 16 + hd) :: r.1, r.2))
        | _, _, _, _ => none
      | _ => none
    | _ => none
  | c :: rest =>
    if c.toNat < 32 then none
    else (parseStrChars rest).map (fun r => (c :: r.1, r.2))

def digitsToNat (ds : List Char) : Nat :=
  ds.foldl (fun acc c => acc * 10 + (c.toNat - '0'.toNat)) 0

/-- JSON number (strict grammar `-?(0|[1-9][0-9]*)(\.[0-9]+)?([eE][+-]?[0-9]+)?`),
as an exact rational. -/
def parseJNum (cs : List Char) : Option (Q × List Char) :=
  let (neg, cs1) := match cs with
    | '-' :: r => (true, r)
    | _ => (false, cs)
  match cs1 with
  | [] => none
  | c :: _ =>
    if !c.isDigit then none else
    let (intDs, rest) :=
      if c = '0' then ([c], cs1.tail)
      else (cs1.takeWhile Char.isDigit, cs1.dropWhile Char.isDigit)
    let (fracDs, rest2) :=
      match rest with
      | '.' :: d :: _ =>
        if d.isDigit then
          ((rest.tail).takeWhile Char.isDigit, (rest.tail).dropWhile Char.isDigit)
        else ([], rest)
      | _ => ([], rest)
    let expPart : Option (Int × List Char) :=
      match rest2 with
      | e :: r3 =>
        if e = 'e' ∨ e = 'E' then
          let (esign, r4) := match r3 with
            | '+' :: r => ((1 : Int), r)
            | '-' :: r => ((-1 : Int), r)
            | _ => ((1 : Int), r3)
          match r4 with
          | d :: _ =>
            if d.isDigit then
              some (esign * (digitsToNat (r4.takeWhile Char.isDigit) : Int),
                r4.dropWhile Char.isDigit)
            else none
          | [] => none
        else some (0, rest2)
      | [] => some (0, rest2)
    -- a malformed exponent ('1e', '1e+') is a decode error
    match expPart with
    | none => none
    | some (ex, rest3) =>
      -- note: when `rest` starts with '.' not followed by a digit (as in
      -- "1.",) the dot is left unconsumed and the surrounding parser
      -- fails on it, matching the CPython decode error
      let mantissa : Int :=
        (digitsToNat intDs : Int) * (10 : Int) ^ fracDs.length +
          (digitsToNat fracDs : Int)
      let mantissa := if neg then -mantissa else mantissa
      let base : Q := qNorm mantissa ((10 : Int) ^ fracDs.length)
      let value : Q :=
        if 0 ≤ ex then base * Q.ofInt ((10 : Int) ^ ex.toNat)
        else base / Q.ofInt ((10 : Int) ^ (-ex).toNat)
      some (value, rest3)

/-- Parse mode: one value, the items of an array after the first `[`,
or the items of an object after the first `{` (accumulating into a dict,
so that duplicate keys keep the first position and the last value, as
Python does). -/
inductive PMode where
  | val
  | arrTail (acc : List JValue)
  | objTail (acc : JDict)

/-- Recursive-descent JSON parser, fuelled (structurally) by the input
length; returns the value and the unconsumed remainder. -/
def parseCore : Nat → PMode → List Char → Option (JValue × List Char)
  | 0, _, _ => none
  | fuel + 1, .val, cs0 =>
    let cs := skipJWs cs0
    match cs with
    | [] => none
    | c :: rest =>
      if c = '{' then
        match skipJWs rest with
        | '}' :: rest2 => some (.obj [], rest2)
        | rest2 => parseCore fuel (.objTail []) rest2
      else if c = '[' then
        match skipJWs rest with
        | ']' :: rest2 => some (.arr [], rest2)
        | rest2 => parseCore fuel (.arrTail []) rest2
      else if c = '"' then
        (parseStrChars rest).map (fun r => (.str (String.mk r.1), r.2))
      else match stripLit "null".data false cs with
      | some rest2 => some (.null, rest2)
      | none => match stripLit "true".data false cs with
        | some rest2 => some (.bool true, rest2)
        | none => match stripLit "false".data false cs with
          | some rest2 => some (.bool false, rest2)
          | none => (parseJNum cs).map (fun r => (.num r.1, r.2))
  | fuel + 1, .arrTail acc, cs => do
    let (v, rest) ← parseCore fuel .val cs
    match skipJWs rest with
    | ',' :: rest2 => parseCore fuel (.arrTail (acc ++ [v])) rest2
    | ']' :: rest2 => some (.arr (acc ++ [v]), rest2)
    | _ => none
  | fuel + 1, .objTail acc, cs0 =>
    match skipJWs cs0 with
    | '"' :: rest => do
      let (kcs, rest2) ← parseStrChars rest
      match skipJWs rest2 with
      | ':' :: rest3 => do
        let (v, rest4) ← parseCore fuel .val rest3
        let acc := setKey acc (String.mk kcs) v
        match skipJWs rest4 with
        | ',' :: rest5 => parseCore fuel (.objTail acc) rest5
        | '}' :: rest5 => some (.obj acc, rest5)
        | _ => none
      | _ => none
    | _ => none

/-- Model of `json.loads`: parse one value, allow surrounding
whitespace, reject trailing data ("Extra data" in CPython). -/
def loads (s : String) : Option JValue :=
  match parseCore (2 * s.length + 8) .val s.data with
  | some (v, rest) => if (skipJWs rest).isEmpty then some v else none
  | none => none

/-- Python `str.strip()` (whitespace set as `\s`). -/
def pyStrip (s : String) : String :=
  String.mk (((s.data.dropWhile pySpace).reverse.dropWhile pySpace).reverse)

/-! ## `SDLCParser._extract_json_from_response` (lines 28-55) -/

/-- The inner loop over one pattern's matches (lines 40-49): strip the
candidate, skip it unless it starts with `{`, return the first candidate
that decodes; a decode error continues the loop.  Each `m` is the list
of findall groups (the whole match for the group-less brace pattern,
group 1 for the fence patterns), so the candidate is its head. -/
def tryMatches : List (List String) → Option JValue
  | [] => none
  | m :: rest =>
    let json_str := pyStrip (m.headD "")
    if json_str.data.head? = some '{' then
      match loads json_str with
      | some v => some v
      | none => tryMatches rest
    else tryMatches rest

/-- The pattern list in source order (lines 32-36): basic brace pattern
first, then the `json`-tagged fence, then the generic fence. -/
def jsonPatterns : List (RE × Nat) :=
  [(reBrace, 0), (reJsonFence, 1), (reFence, 1)]

/-- The outer `for pattern in json_patterns` loop (line 38). -/
def tryPatterns (s : String) : List (RE × Nat) → Option JValue
  | [] => none
  | (re, g) :: rest =>
    match tryMatches (reFindall re g s) with
    | some v => some v
    | none => tryPatterns s rest

/-- Model of `SDLCParser._extract_json_from_response` (lines 28-55):
the pattern loop, then `json.loads` on the whole stripped response. -/
def extract_json_from_response (response : String) : Option JValue :=
  match tryPatterns response jsonPatterns with
  | some v => some v
  | none => loads (pyStrip response)

/-! ## `SDLCParser._extract_phases_from_text` (lines 136-173) -/

/-- One-character string at index `i` (Python string indexing). -/
def charStr (s : String) (i : Nat) : String :=
  match s.data.get? i with
  | some c => String.mk [c]
  | none => ""

/-- Names harvested from the numbered-list pattern: each findall match
is a 3-tuple, so `len(match) >= 2` holds and `match[1]` (the name group)
is taken (lines 151-153). -/
def namesFromNumbered (s : String) : List String :=
  (reFindall reNumbered 3 s).map (fun g => (g.get? 1).getD "")

/-- Names from the "Name: N weeks" pattern: each match is a 2-tuple, so
`match[0]` (the name group) is taken. -/
def namesFromNameWeeks (s : String) : List String :=
  (reFindall reNameWeeks 2 s).map (fun g => (g.get? 0).getD "")

/-- Names from the "Phase: Name" pattern: with a single group, Python's
findall yields plain *strings*, so `len(match)` is the string length and
`match[1]` / `match[0]` are single characters — matches of length < 2
are skipped and longer ones contribute a one-character name, exactly as
the source does. -/
def namesFromPhase (s : String) : List String :=
  (reFindall rePhaseName 1 s).filterMap (fun g =>
    let m := (g.get? 0).getD ""
    if m.length ≥ 2 then
      some (if m.length > 2 then charStr m 1 else charStr m 0)
    else none)

/-- All collected phase-name candidates, in pattern order, duplicates
kept (the source never deduplicates), each stripped at append time. -/
def scanPhaseNames (s : String) : List String :=
  ((namesFromNumbered s ++ namesFromNameWeeks s) ++ namesFromPhase s).map pyStrip

/-- The phase dict built for each scanned name (lines 154-160). -/
def scanPhaseBase (nm : String) : JDict :=
  [("name", .str nm),
   ("description", .str "Extracted from AI response"),
   ("deliverables", .arr []),
   ("activities", .arr []),
   ("team_focus", .str "General development")]

/-- Model of `SDLCParser._extract_phases_from_text` (lines 136-173):
collect candidates, then distribute the duration evenly (lines 162-171);
`percentage` divides by `expected_duration` (not by the actual sum). -/
def extract_phases_from_text (s : String) (T : Int) : List JDict :=
  let base := (scanPhaseNames s).map scanPhaseBase
  if base.isEmpty then []
  else mapIdxFrom (fun i p =>
    let d := evenSplitDuration T base.length i
    setKey (setKey p "duration_weeks" (.num (d : Q)))
      "percentage" (.num ((d : Q) / (T : Q) * 100)))
    0 base

/-! ## `SDLCParser._create_fallback_structure` (lines 112-134) -/

def recommendationsJ : JValue :=
  .arr [.str "Review and adjust phases based on project specifics",
        .str "Consider team experience and project complexity",
        .str "Plan for regular reviews and adjustments"]

def create_fallback_structure (s : String) (T : Int) : JValue :=
  let phases := extract_phases_from_text s T
  let phases := if phases.isEmpty then create_default_phases T else phases
  .obj [("project_summary", defaultProjectSummary T),
        ("phases", .arr (phases.map .obj)),
        ("recommendations", recommendationsJ)]

/-! ## `SDLCParser.parse_ai_response` (lines 8-26) -/

/-- Model of `SDLCParser.parse_ai_response`: extract, check truthiness,
validate; any failure (no JSON, falsy JSON, or an exception inside
validation) degrades to the fallback structure. -/
def parse_ai_response (ai_response : String) (expected_duration : Int) : JValue :=
  match extract_json_from_response ai_response with
  | none => create_fallback_structure ai_response expected_duration
  | some j =>
    if isFalsy j then create_fallback_structure ai_response expected_duration
    else match validate_and_clean j expected_duration with
      | .ok v => v
      | .error _ => create_fallback_structure ai_response expected_duration

/-! ## Model of `json.dumps` (default separators), used to state the
idempotence claim.  Fuelled (structurally) so that the kernel can
evaluate it; the fuel bounds the recursion depth and is ample for every
value arising here. -/

/-- Decimal string of an integer. -/
def intDec (i : Int) : String :=
  if i < 0 then "-" ++ Nat.repr (-i).toNat else Nat.repr i.toNat

/-- Decimal string of a rational whose denominator divides `10^9` (every
number serialized in this development is such; other denominators cannot
be produced by the breakdowns serialized here). -/
def qDec (q : Q) : String :=
  if q.d = 1 then intDec q.n
  else
    let scaled : Int := q.n * (10 ^ 9) / q.d
    let whole := intDec (scaled / 10 ^ 9)
    let fracNat := (if scaled < 0 then -scaled else scaled) % 10 ^ 9
    let fracStr := Nat.repr fracNat.toNat
    let padded := String.mk (List.replicate (9 - fracStr.length) '0') ++ fracStr
    let trimmed := String.mk (padded.data.reverse.dropWhile (· = '0')).reverse
    whole ++ "." ++ (if trimmed = "" then "0" else trimmed)

/-- JSON string quoting with the standard escapes. -/
def jsonQuote (s : String) : String :=
  "\"" ++ String.join (s.data.map (fun c =>
    if c = '"' then "\\\""
    else if c = '\\' then "\\\\"
    else if c = '\n' then "\\n"
    else if c = '\t' then "\\t"
    else if c = '\r' then "\\r"
    else String.mk [c])) ++ "\""

inductive DMode where
  | one (v : JValue)
  | items (xs : List JValue)
  | pairs (kvs : JDict)

def dumpsCore : Nat → DMode → String
  | 0, _ => ""
  | fuel + 1, .one v =>
    match v with
    | .null => "null"
    | .bool b => if b then "true" else "false"
    | .num q => qDec q
    | .str s => jsonQuote s
    | .arr xs => "[" ++ dumpsCore fuel (.items xs) ++ "]"
    | .obj kvs => "\x7b" ++ dumpsCore fuel (.pairs kvs) ++ "\x7d"
  | _ + 1, .items [] => ""
  | fuel + 1, .items [x] => dumpsCore fuel (.one x)
  | fuel + 1, .items (x :: y :: xs) =>
    dumpsCore fuel (.one x) ++ ", " ++ dumpsCore fuel (.items (y :: xs))
  | _ + 1, .pairs [] => ""
  | fuel + 1, .pairs [(k, v)] => jsonQuote k ++ ": " ++ dumpsCore fuel (.one v)
  | fuel + 1, .pairs ((k, v) :: kv :: kvs) =>
    jsonQuote k ++ ": " ++ dumpsCore fuel (.one v) ++ ", " ++
      dumpsCore fuel (.pairs (kv :: kvs))

def dumps (v : JValue) : String := dumpsCore 1000 (.one v)

/-! ## `ExportUtils.to_gantt_data` (export_utils.py lines 137-156) -/

structure GanttEntry where
  task : JValue
  start : Q
  finish : Q
  duration : Q
  description : JValue
  team : JValue
deriving Repr

/-- The loop of `to_gantt_data`: `duration = phase.get('duration_weeks', 0)`,
entries carry `Start = current_start`, `Finish = current_start + duration`,
and `current_start` advances by the duration.  A non-dict phase raises at
`phase.get`; a non-numeric duration raises at `current_start + duration`. -/
def ganttGo (cur : Q) : List JValue → Except Unit (List GanttEntry)
  | [] => .ok []
  | p :: ps =>
    match p with
    | .obj pd =>
      match numQ? ((getKey? pd "duration_weeks").getD (.num 0)) with
      | none => .error ()
      | some d =>
        match ganttGo (cur + d) ps with
        | .error e => .error e
        | .ok rest =>
          .ok ({ task := (getKey? pd "name").getD (.str ""),
                 start := cur, finish := cur + d, duration := d,
                 description := (getKey? pd "description").getD (.str ""),
                 team := (getKey? pd "team_focus").getD (.str "") } :: rest)
    | _ => .error ()

/-- Model of `ExportUtils.to_gantt_data`: `phases = sdlc_data.get('phases', [])`
(raising on a non-dict argument), then the accumulation loop.  Iterating
a non-list truthy `phases` value raises at `phase.get`; empty strings
and dicts iterate zero times. -/
def to_gantt_data (sdlc_data : JValue) : Except Unit (List GanttEntry) :=
  match sdlc_data with
  | .obj kvs =>
    match (getKey? kvs "phases").getD (.arr []) with
    | .arr ps => ganttGo 0 ps
    | .str s => if s = "" then .ok [] else .error ()
    | .obj kvs' => if kvs'.isEmpty then .ok [] else .error ()
    | _ => .error ()
  | _ => .error ()

/-! ## Observations used to state the claims -/

def isObjJ : JValue → Bool
  | .obj _ => true
  | _ => false

def jKeys : JValue → List String
  | .obj kvs => kvs.map (fun kv => kv.1)
  | _ => []

def optKeys (o : Option JValue) : Option (List String) := o.map jKeys

/-- The phase dicts of a result (a Breakdown dict, or the bare phase
list that `_validate_and_clean` returns on its empty-phases branch). -/
def jPhases : JValue → List JDict
  | .obj kvs =>
    match (getKey? kvs "phases").getD (.arr []) with
    | .arr ps => ps.filterMap jObj?
    | _ => []
  | .arr ps => ps.filterMap jObj?
  | _ => []

def durationsOf (v : JValue) : List Q := (jPhases v).map durIdxD

def sumDurations (v : JValue) : Q := sumQ (durationsOf v)

/-- A phase's `percentage` entry (0 when missing or non-numeric). -/
def pctD (p : JDict) : Q :=
  match getKey? p "percentage" with
  | some (.num q) => q
  | _ => 0

def percentagesOf (v : JValue) : List Q := (jPhases v).map pctD

/-- The phases' `name` strings ("" when missing or not a string). -/
def namesOf (v : JValue) : List String :=
  (jPhases v).map (fun p =>
    match getKey? p "name" with
    | some (.str s) => s
    | _ => "")

/-- The phase list of a structured input as the validator sees it
(`data['phases']` with every element a dict). -/
def dataPhases? (data : JValue) : Option (List JDict) :=
  match data with
  | .obj kvs =>
    match getKey? kvs "phases" with
    | some (.arr ps) => traverseOpt jObj? ps
    | _ => none
  | _ => none

/-- The first candidate that parses successfully as a mapping. -/
def firstMapping : List String → Option JValue
  | [] => none
  | c :: rest =>
    match loads (pyStrip c) with
    | some (.obj kvs) => some (.obj kvs)
    | _ => firstMapping rest

/-- Modelled from the spec (§4.1 step 1): structured extraction in the
*claimed* candidate order — (a) a fenced block tagged as structured
data, (b) any fenced block, (c) the largest brace-delimited substring,
(d) the entire text — using the first candidate that parses successfully
as a mapping.  This is the refinement counterpart to be compared with
`extract_json_from_response`, which is translated from the source. -/
def specOrderedExtract (s : String) : Option JValue :=
  firstMapping
    (((reFindall reJsonFence 1 s).map (fun g => g.headD "")) ++
     ((reFindall reFence 1 s).map (fun g => g.headD "")) ++
     ((reFindall reBrace 0 s).map (fun g => g.headD "")) ++ [s])

/-- The candidates the source actually tries, flattened in source order:
all matches of the basic brace pattern, then of the `json`-tagged fence,
then of the generic fence (the whole-text fallback follows separately). -/
def codeOrderedCandidates (s : String) : List String :=
  ((reFindall reBrace 0 s).map (fun g => g.headD "")) ++
  ((reFindall reJsonFence 1 s).map (fun g => g.headD "")) ++
  ((reFindall reFence 1 s).map (fun g => g.headD ""))

/-- First candidate that starts with `{` (after stripping) and decodes. -/
def firstParsedCandidate : List String → Option JValue
  | [] => none
  | c :: rest =>
    let js := pyStrip c
    if js.data.head? = some '{' then
      match loads js with
      | some v => some v
      | none => firstParsedCandidate rest
    else firstParsedCandidate rest

/-- A contiguous Gantt schedule starting at `cur`: each entry starts
where the previous one finished and finishes after its duration. -/
def ganttContig : Q → List GanttEntry → Prop
  | _, [] => True
  | cur, e :: es =>
    e.start = cur ∧ e.finish = cur + e.duration ∧ ganttContig e.finish es

instance : ∀ cur es, Decidable (ganttContig cur es)
  | _, [] => .isTrue trivial
  | _cur, e :: es =>
    have : Decidable (ganttContig e.finish es) := instDecidableGanttContig e.finish es
    inferInstanceAs (Decidable (_ ∧ _ ∧ _))

/-- The raw elements of a result's `phases` entry. -/
def rawPhases (v : JValue) : List JValue :=
  match v with
  | .obj kvs =>
    match (getKey? kvs "phases").getD (.arr []) with
    | .arr ps => ps
    | _ => []
  | _ => []

/-- A phase element's `duration_weeks` as the exporter reads it
(`phase.get('duration_weeks', 0)`). -/
def jDur : JValue → Q
  | .obj pd => durGetD pd
  | _ => 0

/-- A phase element's `name` as the exporter reads it. -/
def jName : JValue → JValue
  | .obj pd => (getKey? pd "name").getD (.str "")
  | _ => .str ""

/-- The week count assigned to a template phase of weight `w`. -/
def defWeek (T w : Int) : Int := max 1 (pyRound ((T : Q) * (w : Q) / 100))

def defWeekSum (T : Int) : Int :=
  defWeek T 15 + defWeek T 20 + defWeek T 40 + defWeek T 20 + defWeek T 5

/-! ## Concrete inputs used by the closed theorems -/

def inputEmptyPhases : String := "\x7b\"phases\": []\x7d"

def inputOnes : String :=
  "\x7b\"phases\": [\x7b\"duration_weeks\": 1\x7d, \x7b\"duration_weeks\": 1\x7d, \x7b\"duration_weeks\": 1\x7d]\x7d"

def inputThrees : String :=
  "\x7b\"phases\": [\x7b\"duration_weeks\": 3\x7d, \x7b\"duration_weeks\": 3\x7d, \x7b\"duration_weeks\": 3\x7d, \x7b\"duration_weeks\": 3\x7d]\x7d"

def inputEmptyDicts : String := "\x7b\"phases\": [\x7b\x7d, \x7b\x7d, \x7b\x7d]\x7d"

def inputFenced : String := "\x7b\"x\": \"a ```json \x7b\x7d ``` b\"\x7d"

def inputPhaseLine : String := "Phase 1: Alpha"

def inputNumbered : String := "1. Design: a\n1. Design: b"

def inputRoundTrip : String :=
  "\x7b\"phases\": [\x7b\"duration_weeks\": 0, \"name\": \"a\", \"description\": \"d\", \"deliverables\": [], \"activities\": [], \"team_focus\": \"t\"\x7d, \x7b\"duration_weeks\": 1, \"name\": \"b\", \"description\": \"d\", \"deliverables\": [], \"activities\": [], \"team_focus\": \"t\"\x7d], \"project_summary\": 0\x7d"
/-! ## Arithmetic lemmas for `Q` -/

theorem ngcd_eq_gcd : ∀ (f a b : Nat), a < f → ngcd f a b = Nat.gcd a b := by
  intro f
  induction f with
  | zero => intro a b h; exact absurd h (Nat.not_lt_zero a)
  | succ f ih =>
    intro a b h
    by_cases ha : a = 0
    · subst ha; simp [ngcd]
    · have hpos : 0 < a := Nat.pos_of_ne_zero ha
      have hlt : b % a < f := Nat.lt_of_lt_of_le (Nat.mod_lt b hpos) (Nat.le_of_lt_succ h)
      rw [ngcd, if_neg ha, ih _ _ hlt]
      exact (Nat.gcd_rec a b).symm

theorem qNorm_int (a : Int) : qNorm a 1 = ⟨a, 1⟩ := by
  unfold qNorm
  rw [if_neg (one_ne_zero)]
  simp only [show ¬((1 : Int) < 0) by omega, if_false, one_mul]
  rw [ngcd_eq_gcd _ _ _ (Nat.lt_succ_self _)]
  simp [Nat.gcd_one_right]

theorem ofInt_add (a b : Int) : Q.ofInt a + Q.ofInt b = Q.ofInt (a + b) := by
  show qNorm (a * 1 + b * 1) (1 * 1) = Q.ofInt (a + b)
  rw [mul_one, mul_one, one_mul, qNorm_int]; rfl

theorem ofInt_sub (a b : Int) : Q.ofInt a - Q.ofInt b = Q.ofInt (a - b) := by
  show qNorm (a * 1 - b * 1) (1 * 1) = Q.ofInt (a - b)
  rw [mul_one, mul_one, one_mul, qNorm_int]; rfl

theorem ofInt_inj {a b : Int} : Q.ofInt a = Q.ofInt b ↔ a = b := by
  constructor
  · intro h; exact congrArg Q.n h
  · intro h; rw [h]

theorem ofInt_lt {a b : Int} : Q.ofInt a < Q.ofInt b ↔ a < b := by
  show a * 1 < b * 1 ↔ a < b
  rw [mul_one, mul_one]

theorem zero_eq_ofInt : (0 : Q) = Q.ofInt 0 := rfl

theorem intCast_eq_ofInt (a : Int) : (a : Q) = Q.ofInt a := rfl

theorem sumQ_nil : sumQ [] = 0 := rfl

theorem sumQ_cons (x : Q) (l : List Q) : sumQ (x :: l) = x + sumQ l := rfl

theorem sumQ_ofInt (l : List Int) : sumQ (l.map Q.ofInt) = Q.ofInt l.sum := by
  induction l with
  | nil => rfl
  | cons x xs ih =>
    rw [List.map_cons, sumQ_cons, ih, ofInt_add, List.sum_cons]

/-! ## Dict lemmas -/

theorem getKey?_setKey_self (kvs : JDict) (k : String) (v : JValue) :
    getKey? (setKey kvs k v) k = some v := by
  induction kvs with
  | nil => simp [setKey, getKey?]
  | cons kv rest ih =>
    by_cases h : kv.1 = k
    · simp [setKey, getKey?, h]
    · simp [setKey, getKey?, h, ih]

theorem getKey?_setKey_ne (kvs : JDict) {k k' : String} (v : JValue) (h : k' ≠ k) :
    getKey? (setKey kvs k v) k' = getKey? kvs k' := by
  induction kvs with
  | nil => simp [setKey, getKey?, Ne.symm h]
  | cons kv rest ih =>
    obtain ⟨k1, v1⟩ := kv
    by_cases hk : k1 = k
    · subst hk
      simp [setKey, getKey?, Ne.symm h]
    · simp [setKey, getKey?, hk, ih]

theorem setKey_same {kvs : JDict} {k : String} {v : JValue}
    (h : getKey? kvs k = some v) : setKey kvs k v = kvs := by
  induction kvs with
  | nil => simp [getKey?] at h
  | cons kv rest ih =>
    obtain ⟨k1, v1⟩ := kv
    by_cases hk : k1 = k
    · subst hk
      simp only [getKey?, eq_self_iff_true, if_true, Option.some.injEq] at h
      simp [setKey, h]
    · simp only [getKey?, if_neg hk] at h
      simp [setKey, hk, ih h]

theorem hasKey_setKey_self (kvs : JDict) (k : String) (v : JValue) :
    hasKey (setKey kvs k v) k = true := by
  simp [hasKey, getKey?_setKey_self]

theorem hasKey_setKey_ne (kvs : JDict) {k k' : String} (v : JValue) (h : k' ≠ k) :
    hasKey (setKey kvs k v) k' = hasKey kvs k' := by
  simp [hasKey, getKey?_setKey_ne kvs v h]

theorem setDefault_of_hasKey {kvs : JDict} {k : String} (v : JValue)
    (h : hasKey kvs k = true) : setDefault kvs k v = kvs := by
  simp [setDefault, h]

theorem getKey?_append_ne {kvs : JDict} {k k' : String} {v : JValue} (h : k' ≠ k) :
    getKey? (kvs ++ [(k, v)]) k' = getKey? kvs k' := by
  induction kvs with
  | nil => simp [getKey?, Ne.symm h]
  | cons kv rest ih =>
    by_cases hk : kv.1 = k'
    · simp [getKey?, hk]
    · simp [getKey?, hk, ih]

theorem getKey?_setDefault_ne (kvs : JDict) {k k' : String} (v : JValue) (h : k' ≠ k) :
    getKey? (setDefault kvs k v) k' = getKey? kvs k' := by
  unfold setDefault
  by_cases hh : hasKey kvs k
  · simp [hh]
  · simp [hh, getKey?_append_ne h]

theorem hasKey_append_self (kvs : JDict) (k : String) (v : JValue) :
    hasKey (kvs ++ [(k, v)]) k = true := by
  induction kvs with
  | nil => simp [hasKey, getKey?]
  | cons kv rest ih =>
    obtain ⟨k1, v1⟩ := kv
    by_cases hk : k1 = k
    · simp [hasKey, getKey?, hk]
    · simpa [hasKey, getKey?, hk] using ih

theorem hasKey_setDefault_self (kvs : JDict) (k : String) (v : JValue) :
    hasKey (setDefault kvs k v) k = true := by
  unfold setDefault
  by_cases hh : hasKey kvs k
  · simp [hh]
  · simp [hh, hasKey_append_self]

/-! ## Traversal lemmas -/

theorem traverseOpt_length {f : α → Option β} :
    ∀ {l : List α} {ys : List β}, traverseOpt f l = some ys → ys.length = l.length := by
  intro l
  induction l with
  | nil => intro ys h; simp [traverseOpt] at h; simp [← h]
  | cons x xs ih =>
    intro ys h
    simp only [traverseOpt, Option.bind_eq_bind] at h
    cases hfx : f x with
    | none => rw [hfx] at h; simp at h
    | some y =>
      rw [hfx] at h
      cases hxs : traverseOpt f xs with
      | none => rw [hxs] at h; simp at h
      | some ys' =>
        rw [hxs] at h
        simp at h
        subst h
        simp [ih hxs]

theorem traverseOpt_map_getD (c : β) {f : α → Option β} :
    ∀ {l : List α} {ys : List β}, traverseOpt f l = some ys →
      l.map (fun x => (f x).getD c) = ys := by
  intro l
  induction l with
  | nil => intro ys h; simp [traverseOpt] at h; simp [← h]
  | cons x xs ih =>
    intro ys h
    simp only [traverseOpt, Option.bind_eq_bind] at h
    cases hfx : f x with
    | none => rw [hfx] at h; simp at h
    | some y =>
      rw [hfx] at h
      cases hxs : traverseOpt f xs with
      | none => rw [hxs] at h; simp at h
      | some ys' =>
        rw [hxs] at h
        simp at h
        subst h
        simp [hfx, ih hxs]

theorem traverseOpt_of_pointwise {f g : α → Option β}
    (hfg : ∀ a b, f a = some b → g a = some b) :
    ∀ {l : List α} {ys : List β}, traverseOpt f l = some ys → traverseOpt g l = some ys := by
  intro l
  induction l with
  | nil => intro ys h; exact h
  | cons x xs ih =>
    intro ys h
    simp only [traverseOpt, Option.bind_eq_bind] at h ⊢
    cases hfx : f x with
    | none => rw [hfx] at h; simp at h
    | some y =>
      rw [hfx] at h
      cases hxs : traverseOpt f xs with
      | none => rw [hxs] at h; simp at h
      | some ys' =>
        rw [hxs] at h
        rw [hfg x y hfx, ih hxs]
        exact h

theorem traverseOpt_map_objs : ∀ (l : List JDict),
    traverseOpt jObj? (l.map JValue.obj) = some l := by
  intro l
  induction l with
  | nil => rfl
  | cons x xs ih => simp [traverseOpt, jObj?, ih]

theorem filterMap_jObj?_map_obj (l : List JDict) :
    (l.map JValue.obj).filterMap jObj? = l := by
  induction l with
  | nil => rfl
  | cons x xs ih => simp [jObj?, ih]

/-! ## Phase-field preservation lemmas -/

theorem durIdx?_durGet? {p : JDict} {q : Q} (h : durIdx? p = some q) :
    durGet? p = some q := by
  unfold durIdx? at h
  unfold durGet?
  cases hg : getKey? p "duration_weeks" with
  | none => rw [hg] at h; simp at h
  | some v => rw [hg] at h; simpa using h

theorem getKey?_fill_of_ne {p : JDict} {k : String}
    (h1 : k ≠ "name") (h2 : k ≠ "description") (h3 : k ≠ "deliverables")
    (h4 : k ≠ "activities") (h5 : k ≠ "team_focus") :
    getKey? (fillPhaseDefaults p) k = getKey? p k := by
  unfold fillPhaseDefaults
  rw [getKey?_setDefault_ne _ _ h5, getKey?_setDefault_ne _ _ h4,
    getKey?_setDefault_ne _ _ h3, getKey?_setDefault_ne _ _ h2,
    getKey?_setDefault_ne _ _ h1]

theorem durIdx?_finishPhase (total : Q) (p : JDict) :
    durIdx? (finishPhase total p) = durIdx? p := by
  unfold finishPhase durIdx?
  rw [getKey?_fill_of_ne (by decide) (by decide) (by decide) (by decide) (by decide),
    getKey?_setKey_ne _ _ (by decide)]

theorem durIdxD_finishPhase (total : Q) (p : JDict) :
    durIdxD (finishPhase total p) = durIdxD p := by
  simp [durIdxD, durIdx?_finishPhase]

theorem pct_finishPhase (total : Q) (p : JDict) :
    getKey? (finishPhase total p) "percentage" =
      some (.num (durIdxD p / total * 100)) := by
  unfold finishPhase
  rw [getKey?_fill_of_ne (by decide) (by decide) (by decide) (by decide) (by decide),
    getKey?_setKey_self]

theorem durIdxD_setKey_dur (p : JDict) (q : Q) :
    durIdxD (setKey p "duration_weeks" (.num q)) = q := by
  simp [durIdxD, durIdx?, getKey?_setKey_self, numQ?]

theorem hasKey_setDefault_ne (kvs : JDict) {k k' : String} (v : JValue) (h : k' ≠ k) :
    hasKey (setDefault kvs k v) k' = hasKey kvs k' := by
  simp [hasKey, getKey?_setDefault_ne kvs v h]

theorem fill_of_hasKey {p : JDict}
    (h1 : hasKey p "name" = true) (h2 : hasKey p "description" = true)
    (h3 : hasKey p "deliverables" = true) (h4 : hasKey p "activities" = true)
    (h5 : hasKey p "team_focus" = true) :
    fillPhaseDefaults p = p := by
  unfold fillPhaseDefaults
  rw [setDefault_of_hasKey _ h1, setDefault_of_hasKey _ h2,
    setDefault_of_hasKey _ h3, setDefault_of_hasKey _ h4,
    setDefault_of_hasKey _ h5]

/-! ## Index-map lemmas -/

theorem map_mapIdxFrom (g : β → γ) (f : Nat → α → β) :
    ∀ (l : List α) (i0 : Nat),
      (mapIdxFrom f i0 l).map g = mapIdxFrom (fun i x => g (f i x)) i0 l := by
  intro l
  induction l with
  | nil => intro i0; rfl
  | cons x xs ih => intro i0; simp [mapIdxFrom, ih]

theorem mapIdxFrom_length (f : Nat → α → β) :
    ∀ (l : List α) (i0 : Nat), (mapIdxFrom f i0 l).length = l.length := by
  intro l
  induction l with
  | nil => intro i0; rfl
  | cons x xs ih => intro i0; simp [mapIdxFrom, ih]

theorem sum_mapIdx_split (dpp rem : Int) :
    ∀ (l : List α) (i0 : Nat),
      (mapIdxFrom (fun i _ => dpp + (if (i : Int) < rem then 1 else 0)) i0 l).sum
        = (l.length : Int) * dpp + max 0 (min (rem - (i0 : Int)) (l.length : Int)) := by
  intro l
  induction l with
  | nil => intro i0; simp [mapIdxFrom]
  | cons x xs ih =>
    intro i0
    simp only [mapIdxFrom, List.sum_cons, ih (i0 + 1), List.length_cons]
    push_cast
    have hmul : ((xs.length : Int) + 1) * dpp = (xs.length : Int) * dpp + dpp := by ring
    rw [hmul]
    generalize (xs.length : Int) * dpp = A
    by_cases h : (i0 : Int) < rem
    · rw [if_pos h]; omega
    · rw [if_neg h]; omega

/-! ## Characterization of a successful validation -/

theorem validate_ok_characterize
    {kvs : JDict} {ps : List JValue} {phs : List JDict} {ds : List Q}
    {T : Int} {out : JValue}
    (hpk : getKey? kvs "phases" = some (.arr ps))
    (hne : ps ≠ [])
    (hobj : traverseOpt jObj? ps = some phs)
    (hds : traverseOpt durGet? phs = some ds)
    (hok : validate_and_clean (.obj kvs) T = .ok out) :
    ∃ ds2, traverseOpt durIdx? (adjustedPhases phs T (sumQ ds)) = some ds2 ∧
      sumQ ds2 ≠ 0 ∧
      out = .obj (finishDict kvs
        ((adjustedPhases phs T (sumQ ds)).map (finishPhase (sumQ ds2))) T) := by
  have hhk : hasKey kvs "phases" = true := by simp [hasKey, hpk]
  have hfe : ps.isEmpty = false := by
    cases ps with
    | nil => exact absurd rfl hne
    | cons a as => rfl
  unfold validate_and_clean at hok
  simp only [hhk, if_true, hpk, Option.getD_some, isFalsy, hfe,
    Bool.false_eq_true, if_false, hobj, hds] at hok
  split at hok
  next => cases hok
  next ds2 hds2 =>
    split at hok
    next htz => cases hok
    next htz =>
      injection hok with h
      exact ⟨ds2, hds2, htz, h.symm⟩

theorem jPhases_finishDict (kvs : JDict) (phases : List JDict) (T : Int) :
    jPhases (.obj (finishDict kvs phases T)) = phases := by
  unfold finishDict
  cases h : hasKey (setKey kvs "phases" (.arr (phases.map .obj))) "project_summary" with
  | true =>
    simp only [h, if_true]
    simp only [jPhases, getKey?_setKey_self, Option.getD_some,
      filterMap_jObj?_map_obj]
  | false =>
    simp only [h, Bool.false_eq_true, if_false]
    simp only [jPhases]
    rw [getKey?_setKey_ne _ (defaultProjectSummary T)
        (show "phases" ≠ "project_summary" by decide),
      getKey?_setKey_self]
    simp only [Option.getD_some]
    exact filterMap_jObj?_map_obj phases

theorem durations_finishPhases (phases : List JDict) (total : Q) :
    (phases.map (finishPhase total)).map durIdxD = phases.map durIdxD := by
  simp [List.map_map, Function.comp, durIdxD_finishPhase]

theorem durations_rescale (phases : List JDict) (T : Int) (S : Q) :
    (rescalePhases phases T S).map durIdxD =
      phases.map (fun p => Q.ofInt (max 1 (pyRound (durGetD p * ((T : Q) / S))))) := by
  unfold rescalePhases
  simp [List.map_map, Function.comp, durIdxD_setKey_dur, intCast_eq_ofInt]

theorem durations_evenSplit (phases : List JDict) (T : Int) :
    (evenSplitPhases phases T).map durIdxD =
      mapIdxFrom (fun i _ => Q.ofInt (evenSplitDuration T phases.length i)) 0 phases := by
  unfold evenSplitPhases
  rw [map_mapIdxFrom]
  simp [durIdxD_setKey_dur, intCast_eq_ofInt]

/-! ## Branch lemmas for duration adjustment -/

theorem adjustedPhases_of_eq (phs : List JDict) (T : Int) :
    adjustedPhases phs T (T : Q) = phs := by
  simp [adjustedPhases]

theorem adjustedPhases_of_zero (phs : List JDict) {T : Int} (hT : T ≠ 0) :
    adjustedPhases phs T 0 = evenSplitPhases phs T := by
  unfold adjustedPhases
  have h1 : (0 : Q) ≠ (T : Q) := by
    rw [zero_eq_ofInt, intCast_eq_ofInt]
    intro h
    exact hT (ofInt_inj.mp h).symm
  have h2 : ¬((0 : Q) < (0 : Q)) := by
    show ¬((0 : Int) * 1 < 0 * 1)
    simp
  simp [h1, h2]

theorem adjustedPhases_of_pos (phs : List JDict) {T : Int} {S : Q}
    (hS : (0 : Q) < S) (hne : S ≠ (T : Q)) :
    adjustedPhases phs T S = rescalePhases phs T S := by
  simp [adjustedPhases, hS, hne]

/-! ## The even split sums exactly to the target when it has enough
weeks for every phase -/

theorem sumQ_evenSplit (phs : List JDict) (T : Int) (h1 : phs ≠ [])
    (h2 : (phs.length : Int) ≤ T) :
    sumQ ((evenSplitPhases phs T).map durIdxD) = (T : Q) := by
  rw [durations_evenSplit, ← map_mapIdxFrom Q.ofInt, sumQ_ofInt, intCast_eq_ofInt]
  congr 1
  rw [show (fun (i : Nat) (_ : JDict) => evenSplitDuration T phs.length i)
      = (fun (i : Nat) (_ : JDict) =>
          (max 1 (Int.fdiv T (phs.length : Int))) +
            (if (i : Int) < T - (max 1 (Int.fdiv T (phs.length : Int))) * (phs.length : Int)
             then 1 else 0)) from rfl]
  rw [sum_mapIdx_split]
  have hn : (0 : Int) < (phs.length : Int) := by
    cases phs with
    | nil => exact absurd rfl h1
    | cons a as => exact_mod_cast Nat.succ_pos as.length
  have hfd : Int.fdiv T (phs.length : Int) = T / (phs.length : Int) :=
    Int.fdiv_eq_ediv _ (le_of_lt hn)
  have hp1 : 1 ≤ T / (phs.length : Int) := by
    rw [Int.le_ediv_iff_mul_le hn]
    simpa using h2
  rw [hfd, max_eq_right hp1]
  have hmod : T - T / (phs.length : Int) * (phs.length : Int) = T % (phs.length : Int) := by
    rw [Int.emod_def]
    ring
  rw [hmod]
  have h0 : 0 ≤ T % (phs.length : Int) := Int.emod_nonneg T (ne_of_gt hn)
  have hlt : T % (phs.length : Int) < (phs.length : Int) := Int.emod_lt_of_pos T hn
  rw [Nat.cast_zero, sub_zero, min_eq_left (le_of_lt hlt), max_eq_right h0]
  exact Int.ediv_add_emod T (phs.length : Int)

/-! ## Default-template computations -/

theorem durIdxD_setKey_pct (p : JDict) (v : JValue) :
    durIdxD (setKey p "percentage" v) = durIdxD p := by
  simp [durIdxD, durIdx?, getKey?_setKey_ne _ v (show "duration_weeks" ≠ "percentage" by decide)]

theorem defaultPhasesInitial_durations (T : Int) :
    (defaultPhasesInitial T).map durIdxD =
      [Q.ofInt (defWeek T 15), Q.ofInt (defWeek T 20), Q.ofInt (defWeek T 40),
       Q.ofInt (defWeek T 20), Q.ofInt (defWeek T 5)] := rfl

theorem defaultPhasesInitial_durGetD (T : Int) :
    (defaultPhasesInitial T).map durGetD =
      [Q.ofInt (defWeek T 15), Q.ofInt (defWeek T 20), Q.ofInt (defWeek T 40),
       Q.ofInt (defWeek T 20), Q.ofInt (defWeek T 5)] := rfl

/-! ## Index-map commutation lemmas -/

theorem mapIdxFrom_congr {f1 f2 : Nat → α → β} (h : ∀ i x, f1 i x = f2 i x) :
    ∀ (l : List α) (i0 : Nat), mapIdxFrom f1 i0 l = mapIdxFrom f2 i0 l := by
  intro l
  induction l with
  | nil => intro i0; rfl
  | cons x xs ih => intro i0; simp [mapIdxFrom, h, ih]

theorem mapIdxFrom_map (f : Nat → β → γ) (g : α → β) :
    ∀ (l : List α) (i0 : Nat),
      mapIdxFrom f i0 (l.map g) = mapIdxFrom (fun i x => f i (g x)) i0 l := by
  intro l
  induction l with
  | nil => intro i0; rfl
  | cons x xs ih => intro i0; simp [mapIdxFrom, ih]

theorem map_modifyIdx_of_comm (g : α → β) (f : α → α) (f' : β → β)
    (h : ∀ x, g (f x) = f' (g x)) (l : List α) (i : Nat) :
    (modifyIdx l i f).map g = modifyIdx (l.map g) i f' := by
  unfold modifyIdx
  rw [map_mapIdxFrom, mapIdxFrom_map]
  apply mapIdxFrom_congr
  intro j x
  by_cases hj : j = i <;> simp [hj, h]

/-! ## Default-template lemmas -/

theorem pctD_setKey_pct (p : JDict) (q : Q) :
    pctD (setKey p "percentage" (.num q)) = q := by
  simp [pctD, getKey?_setKey_self]

theorem durGetD_setKey_dur (p : JDict) (q : Q) :
    durGetD (setKey p "duration_weeks" (.num q)) = q := by
  simp [durGetD, durGet?, getKey?_setKey_self, numQ?]

theorem defaultPhasesInitial_pcts (T : Int) :
    (defaultPhasesInitial T).map pctD =
      [Q.ofInt 15, Q.ofInt 20, Q.ofInt 40, Q.ofInt 20, Q.ofInt 5] := rfl

theorem sumQ_five (a b c d e : Int) :
    sumQ [Q.ofInt a, Q.ofInt b, Q.ofInt c, Q.ofInt d, Q.ofInt e] =
      Q.ofInt (a + b + c + d + e) := by
  simp only [sumQ, List.foldr, zero_eq_ofInt, ofInt_add]
  congr 1
  ring

theorem default_diff_eq (T : Int) :
    (T : Q) - sumQ ((defaultPhasesInitial T).map durGetD) =
      Q.ofInt (T - defWeekSum T) := by
  rw [defaultPhasesInitial_durGetD, sumQ_five, intCast_eq_ofInt, ofInt_sub]
  rfl

theorem modified_default_durations (T : Int) :
    (modifyIdx (defaultPhasesInitial T) 2
        (fun p => setKey p "duration_weeks"
          (.num (durIdxD p +
            ((T : Q) - sumQ ((defaultPhasesInitial T).map durGetD)))))).map durIdxD
      = [Q.ofInt (defWeek T 15), Q.ofInt (defWeek T 20),
         Q.ofInt (defWeek T 40 + (T - defWeekSum T)),
         Q.ofInt (defWeek T 20), Q.ofInt (defWeek T 5)] := by
  rw [map_modifyIdx_of_comm durIdxD _
      (fun d => d + ((T : Q) - sumQ ((defaultPhasesInitial T).map durGetD)))
      (fun p => durIdxD_setKey_dur p _),
    defaultPhasesInitial_durations, default_diff_eq]
  simp [modifyIdx, mapIdxFrom, ofInt_add]

/-- The durations of the default template: the weights' week counts with
the whole signed difference added to the third phase (a no-op when the
difference is zero). -/
theorem default_phases_durations (T : Int) :
    (create_default_phases T).map durIdxD =
      [Q.ofInt (defWeek T 15), Q.ofInt (defWeek T 20),
       Q.ofInt (defWeek T 40 + (T - defWeekSum T)),
       Q.ofInt (defWeek T 20), Q.ofInt (defWeek T 5)] := by
  unfold create_default_phases
  by_cases hd : T - defWeekSum T = 0
  · have hcond : ¬(((T : Q) - sumQ ((defaultPhasesInitial T).map durGetD)) ≠ 0) := by
      rw [default_diff_eq, hd, zero_eq_ofInt]
      simp
    rw [if_neg hcond, defaultPhasesInitial_durations, hd]
    simp
  · have hcond : ((T : Q) - sumQ ((defaultPhasesInitial T).map durGetD)) ≠ 0 := by
      rw [default_diff_eq, zero_eq_ofInt]
      exact fun h => hd (ofInt_inj.mp h)
    rw [if_pos hcond]
    simp only [List.map_map, Function.comp, durIdxD_setKey_pct]
    exact modified_default_durations T

theorem default_phases_sum (T : Int) :
    sumQ ((create_default_phases T).map durIdxD) = (T : Q) := by
  rw [default_phases_durations, sumQ_five, intCast_eq_ofInt]
  congr 1
  unfold defWeekSum at *
  omega

theorem default_phases_pcts_of_diff_zero (T : Int) (hd : T - defWeekSum T = 0) :
    (create_default_phases T).map pctD =
      [Q.ofInt 15, Q.ofInt 20, Q.ofInt 40, Q.ofInt 20, Q.ofInt 5] := by
  unfold create_default_phases
  have hcond : ¬(((T : Q) - sumQ ((defaultPhasesInitial T).map durGetD)) ≠ 0) := by
    rw [default_diff_eq, hd, zero_eq_ofInt]
    simp
  rw [if_neg hcond]
  exact defaultPhasesInitial_pcts T

theorem default_phases_pcts_of_diff_ne (T : Int) (hd : T - defWeekSum T ≠ 0) :
    (create_default_phases T).map pctD =
      ((create_default_phases T).map durIdxD).map (fun d => d / (T : Q) * 100) := by
  have hcond : ((T : Q) - sumQ ((defaultPhasesInitial T).map durGetD)) ≠ 0 := by
    rw [default_diff_eq, zero_eq_ofInt]
    exact fun h => hd (ofInt_inj.mp h)
  have hdgd : (modifyIdx (defaultPhasesInitial T) 2
      (fun p => setKey p "duration_weeks"
        (.num (durIdxD p +
          ((T : Q) - sumQ ((defaultPhasesInitial T).map durGetD)))))).map durGetD
      = (modifyIdx (defaultPhasesInitial T) 2
      (fun p => setKey p "duration_weeks"
        (.num (durIdxD p +
          ((T : Q) - sumQ ((defaultPhasesInitial T).map durGetD)))))).map durIdxD := rfl
  have htot : sumQ ((modifyIdx (defaultPhasesInitial T) 2
      (fun p => setKey p "duration_weeks"
        (.num (durIdxD p +
          ((T : Q) - sumQ ((defaultPhasesInitial T).map durGetD)))))).map durGetD)
      = (T : Q) := by
    rw [hdgd, modified_default_durations, sumQ_five, intCast_eq_ofInt]
    congr 1
    unfold defWeekSum at *
    omega
  unfold create_default_phases
  rw [if_pos hcond]
  simp only [htot, List.map_map]
  simp [Function.comp, pctD_setKey_pct, durIdxD_setKey_pct]

/-! ## Flattening the extraction loop (for the candidate-order claim) -/

theorem firstParsedCandidate_cons (c : String) (l : List String) :
    firstParsedCandidate (c :: l) =
      (if (pyStrip c).data.head? = some '{' then
        match loads (pyStrip c) with
        | some v => some v
        | none => firstParsedCandidate l
      else firstParsedCandidate l) := rfl

theorem tryMatches_eq_first : ∀ (ms : List (List String)),
    tryMatches ms = firstParsedCandidate (ms.map (fun g => g.headD "")) := by
  intro ms
  induction ms with
  | nil => rfl
  | cons m rest ih =>
    have h1 : tryMatches (m :: rest) =
        (if (pyStrip (m.headD "")).data.head? = some '{' then
          match loads (pyStrip (m.headD "")) with
          | some v => some v
          | none => tryMatches rest
        else tryMatches rest) := rfl
    rw [List.map_cons, h1, firstParsedCandidate_cons]
    by_cases h : (pyStrip (m.headD "")).data.head? = some '{'
    · simp only [h, if_true]
      cases loads (pyStrip (m.headD "")) <;> simp [ih]
    · simp only [h, if_false]
      exact ih

theorem firstParsedCandidate_append : ∀ (xs ys : List String),
    firstParsedCandidate (xs ++ ys) =
      match firstParsedCandidate xs with
      | some v => some v
      | none => firstParsedCandidate ys := by
  intro xs ys
  induction xs with
  | nil => rfl
  | cons c rest ih =>
    rw [List.cons_append, firstParsedCandidate_cons, firstParsedCandidate_cons]
    by_cases h : (pyStrip c).data.head? = some '{'
    · simp only [h, if_true]
      cases loads (pyStrip c) with
      | some v => rfl
      | none => simp [ih]
    · simp only [h, if_false]
      exact ih

theorem extract_eq_flat (s : String) :
    extract_json_from_response s =
      match firstParsedCandidate (codeOrderedCandidates s) with
      | some v => some v
      | none => loads (pyStrip s) := by
  unfold extract_json_from_response codeOrderedCandidates jsonPatterns
  simp only [tryPatterns, tryMatches_eq_first]
  rw [firstParsedCandidate_append, firstParsedCandidate_append]
  cases firstParsedCandidate ((reFindall reBrace 0 s).map (fun g => g.headD "")) <;>
    cases firstParsedCandidate ((reFindall reJsonFence 1 s).map (fun g => g.headD "")) <;>
      cases firstParsedCandidate ((reFindall reFence 1 s).map (fun g => g.headD "")) <;>
        rfl

/-! ## Fallback-path lemmas -/

theorem extract_phases_of_no_scan {s : String} (T : Int)
    (h : scanPhaseNames s = []) : extract_phases_from_text s T = [] := by
  unfold extract_phases_from_text
  rw [h]
  rfl

theorem filterMap_jObj?_comp (l : List JDict) :
    l.filterMap (jObj? ∘ JValue.obj) = l := by
  induction l with
  | nil => rfl
  | cons x xs ih => simp [jObj?, Function.comp, ih]

theorem jPhases_fallback (s : String) (T : Int) :
    jPhases (create_fallback_structure s T) =
      (if (extract_phases_from_text s T).isEmpty then create_default_phases T
       else extract_phases_from_text s T) := by
  unfold create_fallback_structure jPhases
  simp only [getKey?]
  rw [if_neg (show ¬(("project_summary" : String) = "phases") by decide)]
  simp only [if_true, Option.getD_some, List.filterMap_map]
  split <;> exact filterMap_jObj?_comp _

theorem parse_of_extract_none {s : String} {T : Int}
    (h : extract_json_from_response s = none) :
    parse_ai_response s T = create_fallback_structure s T := by
  unfold parse_ai_response
  rw [h]

/-! ## Observations of a successful validation -/

theorem map_durIdxD_eq_getD (l : List JDict) :
    l.map (fun x => (durIdx? x).getD 0) = l.map durIdxD := rfl

theorem pctD_finishPhase (total : Q) (p : JDict) :
    pctD (finishPhase total p) = durIdxD p / total * 100 := by
  simp [pctD, pct_finishPhase]

theorem percentages_finishPhases (phases : List JDict) (total : Q) :
    (phases.map (finishPhase total)).map pctD =
      (phases.map durIdxD).map (fun d => d / total * 100) := by
  simp [List.map_map, Function.comp, pctD_finishPhase]

theorem validate_ok_obs
    {kvs : JDict} {ps : List JValue} {phs : List JDict} {ds : List Q}
    {T : Int} {out : JValue}
    (hpk : getKey? kvs "phases" = some (.arr ps))
    (hne : ps ≠ [])
    (hobj : traverseOpt jObj? ps = some phs)
    (hds : traverseOpt durGet? phs = some ds)
    (hok : validate_and_clean (.obj kvs) T = .ok out) :
    durationsOf out = (adjustedPhases phs T (sumQ ds)).map durIdxD ∧
    traverseOpt durIdx? (adjustedPhases phs T (sumQ ds)) =
      some ((adjustedPhases phs T (sumQ ds)).map durIdxD) ∧
    sumDurations out ≠ 0 ∧
    percentagesOf out =
      ((adjustedPhases phs T (sumQ ds)).map durIdxD).map
        (fun d => d / sumDurations out * 100) := by
  obtain ⟨ds2, hds2, htz, hout⟩ := validate_ok_characterize hpk hne hobj hds hok
  have hmap : (adjustedPhases phs T (sumQ ds)).map durIdxD = ds2 := by
    rw [← map_durIdxD_eq_getD]
    exact traverseOpt_map_getD 0 hds2
  have hdur : durationsOf out = (adjustedPhases phs T (sumQ ds)).map durIdxD := by
    rw [hout]
    unfold durationsOf
    rw [jPhases_finishDict, durations_finishPhases]
  have hsum : sumDurations out = sumQ ds2 := by
    unfold sumDurations
    rw [hdur, hmap]
  have hpct : percentagesOf out =
      ((adjustedPhases phs T (sumQ ds)).map durIdxD).map
        (fun d => d / sumQ ds2 * 100) := by
    rw [hout]
    unfold percentagesOf
    rw [jPhases_finishDict, percentages_finishPhases]
  refine ⟨hdur, by rw [hmap]; exact hds2, by rw [hsum]; exact htz, ?_⟩
  rw [hpct, hsum]

/-! ## Further helpers: even-split closed form, Gantt, and revalidation -/

theorem evenSplitDuration_eq {T : Int} {n : Nat} (hn : 0 < n) (hnT : (n : Int) ≤ T)
    (i : Nat) :
    evenSplitDuration T n i =
      T / (n : Int) + (if (i : Int) < T % (n : Int) then 1 else 0) := by
  have hzeta : evenSplitDuration T n i =
      (max 1 (Int.fdiv T (n : Int))) +
        (if (i : Int) < T - (max 1 (Int.fdiv T (n : Int))) * (n : Int)
         then 1 else 0) := rfl
  have hn' : (0 : Int) < (n : Int) := by exact_mod_cast hn
  have hfd : Int.fdiv T (n : Int) = T / (n : Int) := Int.fdiv_eq_ediv _ (le_of_lt hn')
  have hp1 : 1 ≤ T / (n : Int) := by
    rw [Int.le_ediv_iff_mul_le hn']
    simpa using hnT
  have hmod : T - T / (n : Int) * (n : Int) = T % (n : Int) := by
    rw [Int.emod_def]
    ring
  rw [hzeta, hfd, max_eq_right hp1, hmod]

theorem adjustedPhases_length (phs : List JDict) (T : Int) (S : Q) :
    (adjustedPhases phs T S).length = phs.length := by
  unfold adjustedPhases rescalePhases evenSplitPhases
  split
  · split
    · simp
    · exact mapIdxFrom_length _ _ _
  · rfl

theorem traverseOpt_map (f : β → Option γ) (g : α → β) :
    ∀ (l : List α), traverseOpt f (l.map g) = traverseOpt (fun x => f (g x)) l := by
  intro l
  induction l with
  | nil => rfl
  | cons x xs ih => simp [traverseOpt, ih]

theorem hasKey_fill_each (p : JDict) :
    hasKey (fillPhaseDefaults p) "name" = true ∧
    hasKey (fillPhaseDefaults p) "description" = true ∧
    hasKey (fillPhaseDefaults p) "deliverables" = true ∧
    hasKey (fillPhaseDefaults p) "activities" = true ∧
    hasKey (fillPhaseDefaults p) "team_focus" = true := by
  unfold fillPhaseDefaults
  refine ⟨?_, ?_, ?_, ?_, ?_⟩ <;>
    repeat first
      | exact hasKey_setDefault_self _ _ _
      | rw [hasKey_setDefault_ne _ _ (by decide)]

theorem finishPhase_hasKeys (total : Q) (p : JDict) :
    hasKey (finishPhase total p) "name" = true ∧
    hasKey (finishPhase total p) "description" = true ∧
    hasKey (finishPhase total p) "deliverables" = true ∧
    hasKey (finishPhase total p) "activities" = true ∧
    hasKey (finishPhase total p) "team_focus" = true := by
  unfold finishPhase
  exact hasKey_fill_each _

/-- Re-finishing a finished phase with the same total changes nothing. -/
theorem finishPhase_idem (total : Q) (p : JDict) :
    finishPhase total (finishPhase total p) = finishPhase total p := by
  have hstep : finishPhase total (finishPhase total p) =
      fillPhaseDefaults (setKey (finishPhase total p) "percentage"
        (.num (durIdxD (finishPhase total p) / total * 100))) := rfl
  rw [hstep, durIdxD_finishPhase, setKey_same (by rw [pct_finishPhase])]
  obtain ⟨h1, h2, h3, h4, h5⟩ := finishPhase_hasKeys total p
  exact fill_of_hasKey h1 h2 h3 h4 h5

theorem getKey?_finishDict_phases (kvs : JDict) (phases : List JDict) (T : Int) :
    getKey? (finishDict kvs phases T) "phases" =
      some (.arr (phases.map .obj)) := by
  unfold finishDict
  cases h : hasKey (setKey kvs "phases" (.arr (phases.map .obj))) "project_summary" with
  | true =>
    simp only [h, if_true]
    exact getKey?_setKey_self _ _ _
  | false =>
    simp only [h, Bool.false_eq_true, if_false]
    rw [getKey?_setKey_ne _ (defaultProjectSummary T)
        (show "phases" ≠ "project_summary" by decide)]
    exact getKey?_setKey_self _ _ _

theorem hasKey_finishDict_summary (kvs : JDict) (phases : List JDict) (T : Int) :
    hasKey (finishDict kvs phases T) "project_summary" = true := by
  unfold finishDict
  cases h : hasKey (setKey kvs "phases" (.arr (phases.map .obj))) "project_summary" with
  | true => simp only [h, if_true]
  | false =>
    simp only [h, Bool.false_eq_true, if_false]
    exact hasKey_setKey_self _ _ _

theorem finishDict_idem (kvs : JDict) (phases : List JDict) (T : Int) :
    finishDict (finishDict kvs phases T) phases T = finishDict kvs phases T := by
  have hstep : finishDict (finishDict kvs phases T) phases T =
      (if hasKey (setKey (finishDict kvs phases T) "phases"
            (.arr (phases.map .obj))) "project_summary" = true
       then setKey (finishDict kvs phases T) "phases" (.arr (phases.map .obj))
       else setKey (setKey (finishDict kvs phases T) "phases"
            (.arr (phases.map .obj))) "project_summary"
            (defaultProjectSummary T)) := rfl
  rw [hstep, setKey_same (getKey?_finishDict_phases kvs phases T),
    if_pos (hasKey_finishDict_summary kvs phases T)]

/-! ## Gantt loop specification -/

theorem ganttGo_spec : ∀ (ps : List JValue) (cur : Q) (entries : List GanttEntry),
    ganttGo cur ps = .ok entries →
    ganttContig cur entries ∧
    entries.length = ps.length ∧
    entries.map (fun e => e.duration) = ps.map jDur ∧
    entries.map (fun e => e.task) = ps.map jName := by
  intro ps
  induction ps with
  | nil =>
    intro cur entries h
    injection h with h
    subst h
    exact ⟨trivial, rfl, rfl, rfl⟩
  | cons p ps ih =>
    intro cur entries h
    cases p with
    | obj pd =>
      have hstep : ganttGo cur (JValue.obj pd :: ps) =
          (match numQ? ((getKey? pd "duration_weeks").getD (.num 0)) with
           | none => .error ()
           | some d =>
             match ganttGo (cur + d) ps with
             | .error e => .error e
             | .ok rest =>
               .ok ({ task := (getKey? pd "name").getD (.str ""),
                      start := cur, finish := cur + d, duration := d,
                      description := (getKey? pd "description").getD (.str ""),
                      team := (getKey? pd "team_focus").getD (.str "") } :: rest)) := rfl
      rw [hstep] at h
      cases hnq : numQ? ((getKey? pd "duration_weeks").getD (.num 0)) with
      | none => simp only [hnq] at h; cases h
      | some d =>
        simp only [hnq] at h
        cases hrest : ganttGo (cur + d) ps with
        | error e => simp only [hrest] at h; cases h
        | ok rest =>
          simp only [hrest] at h
          injection h with h
          subst h
          obtain ⟨hc, hl, hd, ht⟩ := ih (cur + d) rest hrest
          refine ⟨⟨rfl, rfl, hc⟩, by simp [hl], ?_, ?_⟩
          · simp only [List.map_cons, hd]
            have hjd : jDur (.obj pd) = d := by
              simp [jDur, durGetD, durGet?, hnq]
            rw [hjd]
          · simp only [List.map_cons, ht]
            rfl
    | null => cases h
    | bool b => cases h
    | num q => cases h
    | str s => cases h
    | arr xs => cases h

/-- C2 (amended): the output durations sum exactly to the target when
the recovered structured phases' durations already sum to the target, or
sum to zero with at most `target` phases; and on the unparsable-input
default-template path.  (The proportional-rescale branch and a text scan
with more phases than weeks can drift, per the counterexample.) -/
theorem C2_amended_sum_equals_target :
    (∀ (kvs : JDict) (ps : List JValue) (phs : List JDict) (ds : List Q)
        (T : Int) (out : JValue),
      0 < T →
      getKey? kvs "phases" = some (.arr ps) →
      traverseOpt jObj? ps = some phs →
      traverseOpt durGet? phs = some ds →
      (sumQ ds = (T : Q) ∨ (sumQ ds = 0 ∧ (phs.length : Int) ≤ T)) →
      validate_and_clean (.obj kvs) T = .ok out →
      sumDurations out = (T : Q)) ∧
    (∀ (s : String) (T : Int), 0 < T →
      extract_json_from_response s = none →
      scanPhaseNames s = [] →
      sumDurations (parse_ai_response s T) = (T : Q)) := by
  constructor
  · intro kvs ps phs ds T out hT hpk hobj hds hcase hok
    by_cases hps : ps = []
    · subst hps
      have hhk : hasKey kvs "phases" = true := by simp [hasKey, hpk]
      unfold validate_and_clean at hok
      simp only [hhk, if_true, hpk, Option.getD_some, isFalsy, List.isEmpty_nil] at hok
      injection hok with hout
      rw [← hout]
      unfold sumDurations durationsOf
      rw [show jPhases (.arr ((create_default_phases T).map .obj)) =
          create_default_phases T from by
        simp only [jPhases, List.filterMap_map]
        exact filterMap_jObj?_comp _]
      exact default_phases_sum T
    · obtain ⟨hdur, hidx, hne0, hpct⟩ := validate_ok_obs hpk hps hobj hds hok
      unfold sumDurations
      rw [hdur]
      rcases hcase with hT' | ⟨h0, hlen⟩
      · rw [hT'] at hidx ⊢
        rw [adjustedPhases_of_eq] at hidx ⊢
        have hget : traverseOpt durGet? phs = some (phs.map durIdxD) :=
          traverseOpt_of_pointwise (fun a b h => durIdx?_durGet? h) hidx
        have hdse : phs.map durIdxD = ds :=
          (Option.some.inj (hds.symm.trans hget)).symm
        rw [hdse]
        exact hT'
      · have hTne : T ≠ 0 := by omega
        rw [h0, adjustedPhases_of_zero _ hTne]
        have hphs : phs ≠ [] := by
          intro hphs0
          apply hps
          have hl := traverseOpt_length hobj
          rw [hphs0] at hl
          cases ps with
          | nil => rfl
          | cons a as => simp at hl
        exact sumQ_evenSplit phs T hphs hlen
  · intro s T hT hex hscan
    rw [parse_of_extract_none hex]
    unfold sumDurations durationsOf
    rw [jPhases_fallback, extract_phases_of_no_scan T hscan]
    simp only [List.isEmpty_nil, if_true]
    exact default_phases_sum T

set_option maxRecDepth 100000 in
/-- C2 (witness): a structured input whose single phase already carries
the target duration validates with an output summing to the target. -/
theorem C2_amended_witness :
    sumDurations ((validate_and_clean
        (.obj [("phases", .arr [.obj [("duration_weeks", .num 10)]])])
        10).toOption.getD .null) = ((10 : Int) : Q) := by
  have h := C2_amended_sum_equals_target.1
    [("phases", .arr [.obj [("duration_weeks", .num 10)]])]
    [.obj [("duration_weeks", .num 10)]]
    [[("duration_weeks", .num 10)]] [10] 10 _
    (by decide) rfl rfl rfl (Or.inl (by decide)) rfl
  exact h

/-- C3 (amended): in the proportional-rescale branch every output
duration is `max(1, round(d * target/S))` where `round` is Python's
round-half-to-even on the exact value (so the claimed `2.5 → 3` is
wrong: ties round to even); the rounded sum is not re-verified, and on
the claim's own example `[3,3,3,3]` with target 10 the output is
`[2,2,2,2]`, summing to 8. -/
theorem C3_amended_rescale_half_even :
    (∀ (kvs : JDict) (ps : List JValue) (phs : List JDict) (ds : List Q)
        (T : Int) (out : JValue),
      getKey? kvs "phases" = some (.arr ps) →
      traverseOpt jObj? ps = some phs →
      traverseOpt durGet? phs = some ds →
      (0 : Q) < sumQ ds →
      sumQ ds ≠ (T : Q) →
      validate_and_clean (.obj kvs) T = .ok out →
      durationsOf out =
        phs.map (fun p =>
          Q.ofInt (max 1 (pyRound (durGetD p * ((T : Q) / sumQ ds)))))) := by
  intro kvs ps phs ds T out hpk hobj hds hpos hneq hok
  have hps : ps ≠ [] := by
    intro h
    subst h
    have h1 : phs = [] := (Option.some.inj hobj).symm
    subst h1
    have h2 : ds = [] := (Option.some.inj hds).symm
    subst h2
    exact absurd hpos (by decide)
  obtain ⟨hdur, _, _, _⟩ := validate_ok_obs hpk hps hobj hds hok
  rw [hdur, adjustedPhases_of_pos phs hpos hneq, durations_rescale]

set_option maxRecDepth 100000 in
/-- C3 (witness): phases `[1,1,1]` with target 10 rescale by `10/3` to
`[3,3,3]` according to the formula. -/
theorem C3_amended_witness :
    durationsOf ((validate_and_clean
        (.obj [("phases", .arr [.obj [("duration_weeks", .num 1)],
          .obj [("duration_weeks", .num 1)], .obj [("duration_weeks", .num 1)]])])
        10).toOption.getD .null) = [3, 3, 3] := by
  have h := C3_amended_rescale_half_even
    [("phases", .arr [.obj [("duration_weeks", .num 1)],
      .obj [("duration_weeks", .num 1)], .obj [("duration_weeks", .num 1)]])]
    [.obj [("duration_weeks", .num 1)], .obj [("duration_weeks", .num 1)],
      .obj [("duration_weeks", .num 1)]]
    [[("duration_weeks", .num 1)], [("duration_weeks", .num 1)],
      [("duration_weeks", .num 1)]] [1, 1, 1] 10 _
    rfl rfl rfl (by decide) (by decide) rfl
  exact h.trans (by decide)

/-- C4 (amended): the default template assigns
`max(1, round(T*w/100))` weeks per weight, adds the entire signed
difference to the third phase, and sums exactly to the target; but the
percentages are recomputed from the final week counts only when that
difference is nonzero — otherwise they remain the template weights
15/20/40/20/5.  For unparsable input with no scan matches the parsed
result's phases are exactly this template. -/
theorem C4_amended_default_template :
    ∀ T : Int,
      ((create_default_phases T).map durIdxD =
        [Q.ofInt (defWeek T 15), Q.ofInt (defWeek T 20),
         Q.ofInt (defWeek T 40 + (T - defWeekSum T)),
         Q.ofInt (defWeek T 20), Q.ofInt (defWeek T 5)]) ∧
      sumQ ((create_default_phases T).map durIdxD) = (T : Q) ∧
      (T - defWeekSum T = 0 →
        (create_default_phases T).map pctD =
          [Q.ofInt 15, Q.ofInt 20, Q.ofInt 40, Q.ofInt 20, Q.ofInt 5]) ∧
      (T - defWeekSum T ≠ 0 →
        (create_default_phases T).map pctD =
          ((create_default_phases T).map durIdxD).map
            (fun d => d / (T : Q) * 100)) ∧
      (∀ s : String, extract_json_from_response s = none →
        scanPhaseNames s = [] →
        jPhases (parse_ai_response s T) = create_default_phases T) := by
  intro T
  refine ⟨default_phases_durations T, default_phases_sum T,
    default_phases_pcts_of_diff_zero T, default_phases_pcts_of_diff_ne T, ?_⟩
  intro s hex hscan
  rw [parse_of_extract_none hex, jPhases_fallback, extract_phases_of_no_scan T hscan]
  simp

set_option maxRecDepth 100000 in
/-- C4 (witness): at target 12 the difference is zero, the percentages
stay at the template weights, and the empty input takes this path. -/
theorem C4_amended_witness :
    (12 - defWeekSum 12 = 0) ∧
    (create_default_phases 12).map pctD =
      [Q.ofInt 15, Q.ofInt 20, Q.ofInt 40, Q.ofInt 20, Q.ofInt 5] ∧
    jPhases (parse_ai_response "" 12) = create_default_phases 12 := by
  refine ⟨by decide, (C4_amended_default_template 12).2.2.1 (by decide), ?_⟩
  exact (C4_amended_default_template 12).2.2.2.2 "" rfl (by decide)

/-- C5 (amended): the even split distributes `floor(T/N)` weeks plus one
extra to the first `T mod N` phases and sums exactly to the target
*provided the phase count does not exceed the target* — when it does,
`max(1, ...)` gives every phase one week and the sum is `N`, not `T`
(see the counterexample). -/
theorem C5_amended_even_split :
    ∀ (kvs : JDict) (ps : List JValue) (phs : List JDict) (ds : List Q)
        (T : Int) (out : JValue),
      0 < T →
      getKey? kvs "phases" = some (.arr ps) →
      ps ≠ [] →
      traverseOpt jObj? ps = some phs →
      traverseOpt durGet? phs = some ds →
      sumQ ds = 0 →
      (phs.length : Int) ≤ T →
      validate_and_clean (.obj kvs) T = .ok out →
      (durationsOf out = mapIdxFrom (fun i _ =>
        Q.ofInt (T / (phs.length : Int) +
          (if (i : Int) < T % (phs.length : Int) then 1 else 0))) 0 phs) ∧
      sumDurations out = (T : Q) := by
  intro kvs ps phs ds T out hT hpk hps hobj hds h0 hlen hok
  have hphs : phs ≠ [] := by
    intro hphs0
    apply hps
    have hl := traverseOpt_length hobj
    rw [hphs0] at hl
    cases ps with
    | nil => rfl
    | cons a as => simp at hl
  have hn : 0 < phs.length := List.length_pos.mpr hphs
  obtain ⟨hdur, hidx, hne0, hpct⟩ := validate_ok_obs hpk hps hobj hds hok
  have hTne : T ≠ 0 := by omega
  rw [h0, adjustedPhases_of_zero _ hTne] at hdur
  constructor
  · rw [hdur, durations_evenSplit]
    apply mapIdxFrom_congr
    intro i x
    rw [evenSplitDuration_eq hn hlen]
  · unfold sumDurations
    rw [hdur]
    exact sumQ_evenSplit phs T hphs hlen

set_option maxRecDepth 100000 in
/-- C5 (witness): two zero-duration phases with target 3 get `[2, 1]`
(floor 1 each, the first takes the extra week), summing to 3. -/
theorem C5_amended_witness :
    durationsOf ((validate_and_clean
        (.obj [("phases", .arr [.obj [], .obj []])]) 3).toOption.getD .null)
      = [2, 1] ∧
    sumDurations ((validate_and_clean
        (.obj [("phases", .arr [.obj [], .obj []])]) 3).toOption.getD .null)
      = ((3 : Int) : Q) := by
  have h := C5_amended_even_split [("phases", .arr [.obj [], .obj []])]
    [.obj [], .obj []] [[], []] [0, 0] 3 _
    (by decide) rfl (List.cons_ne_nil _ _) rfl rfl (by decide) (by decide) rfl
  exact ⟨h.1.trans (by decide), h.2⟩

/-- C6 (amended): on the validated-structured path every percentage is
recomputed as `duration / actual_total * 100` from the final durations;
the invariant fails on the fallback paths (default template with zero
difference keeps the weights; the text scan divides by the target rather
than the actual sum). -/
theorem C6_amended_percentage_recompute :
    ∀ (kvs : JDict) (ps : List JValue) (phs : List JDict) (ds : List Q)
        (T : Int) (out : JValue),
      getKey? kvs "phases" = some (.arr ps) →
      ps ≠ [] →
      traverseOpt jObj? ps = some phs →
      traverseOpt durGet? phs = some ds →
      validate_and_clean (.obj kvs) T = .ok out →
      percentagesOf out =
        (durationsOf out).map (fun d => d / sumDurations out * 100) := by
  intro kvs ps phs ds T out hpk hps hobj hds hok
  obtain ⟨hdur, _, _, hpct⟩ := validate_ok_obs hpk hps hobj hds hok
  rw [hpct, ← hdur]

set_option maxRecDepth 100000 in
/-- C6 (witness): a concrete validated breakdown satisfies the
percentage invariant. -/
theorem C6_amended_witness :
    percentagesOf ((validate_and_clean
        (.obj [("phases", .arr [.obj [("duration_weeks", .num 1)],
          .obj [("duration_weeks", .num 3)]])]) 4).toOption.getD .null) =
      (durationsOf ((validate_and_clean
        (.obj [("phases", .arr [.obj [("duration_weeks", .num 1)],
          .obj [("duration_weeks", .num 3)]])]) 4).toOption.getD .null)).map
        (fun d => d / sumDurations ((validate_and_clean
          (.obj [("phases", .arr [.obj [("duration_weeks", .num 1)],
            .obj [("duration_weeks", .num 3)]])]) 4).toOption.getD .null) * 100) := by
  have h := C6_amended_percentage_recompute
    [("phases", .arr [.obj [("duration_weeks", .num 1)],
      .obj [("duration_weeks", .num 3)]])]
    [.obj [("duration_weeks", .num 1)], .obj [("duration_weeks", .num 3)]]
    [[("duration_weeks", .num 1)], [("duration_weeks", .num 3)]]
    [1, 3] 4 _
    rfl (List.cons_ne_nil _ _) rfl rfl rfl
  exact h

/-- C7 (amended): structured extraction tries, in source order, the
candidates of the basic brace pattern (the largest brace-delimited
substring), then the `json`-tagged fenced blocks, then generic fenced
blocks, and finally decodes the entire stripped text; the first
stripped candidate that starts with `{` and decodes is used. -/
theorem C7_amended_extraction_order (s : String) :
    extract_json_from_response s =
      match firstParsedCandidate (codeOrderedCandidates s) with
      | some v => some v
      | none => loads (pyStrip s) :=
  extract_eq_flat s

set_option maxRecDepth 400000 in
/-- C9 (counterexample): phases `[0, 1]` with target 3 validate to
durations `[1, 3]` (sum 4 ≠ 3); re-encoding that output as JSON and
parsing it again rescales by `3/4` and yields `[1, 2]` — the Breakdown
changes, so the normalizer is not idempotent. -/
theorem C9_counterexample_round_trip :
    durationsOf (parse_ai_response inputRoundTrip 3) = [1, 3] ∧
    durationsOf (parse_ai_response (dumps (parse_ai_response inputRoundTrip 3)) 3)
      = [1, 2] ∧
    parse_ai_response (dumps (parse_ai_response inputRoundTrip 3)) 3 ≠
      parse_ai_response inputRoundTrip 3 := by
  refine ⟨by decide, by decide, ?_⟩
  intro h
  have h2 := congrArg durationsOf h
  rw [(by decide :
      durationsOf (parse_ai_response (dumps (parse_ai_response inputRoundTrip 3)) 3)
        = ([1, 2] : List Q)),
    (by decide :
      durationsOf (parse_ai_response inputRoundTrip 3) = ([1, 3] : List Q))] at h2
  exact absurd h2 (by decide)

/-- C9 (amended): a successfully validated Breakdown whose durations sum
to the target is a fixed point of validation — running it through
`_validate_and_clean` again returns it unchanged.  (When rescaling drift
leaves the sum off-target — as in the counterexample — a second pass
rescales again and the Breakdown changes.) -/
theorem C9_amended_idempotent_when_sum_matches :
    ∀ (kvs : JDict) (ps : List JValue) (phs : List JDict) (ds : List Q)
        (T : Int) (out : JValue),
      0 < T →
      getKey? kvs "phases" = some (.arr ps) →
      ps ≠ [] →
      traverseOpt jObj? ps = some phs →
      traverseOpt durGet? phs = some ds →
      validate_and_clean (.obj kvs) T = .ok out →
      sumDurations out = (T : Q) →
      validate_and_clean out T = .ok out := by
  intro kvs ps phs ds T out hT hpk hps hobj hds hok hsumT
  obtain ⟨ds2, hds2, htz, hout⟩ := validate_ok_characterize hpk hps hobj hds hok
  have hmap : (adjustedPhases phs T (sumQ ds)).map durIdxD = ds2 := by
    rw [← map_durIdxD_eq_getD]
    exact traverseOpt_map_getD 0 hds2
  have hsum_total : sumQ ds2 = (T : Q) := by
    have hdur : durationsOf out = (adjustedPhases phs T (sumQ ds)).map durIdxD := by
      rw [hout]
      unfold durationsOf
      rw [jPhases_finishDict, durations_finishPhases]
    calc sumQ ds2 = sumQ ((adjustedPhases phs T (sumQ ds)).map durIdxD) := by
          rw [hmap]
      _ = sumDurations out := by unfold sumDurations; rw [hdur]
      _ = (T : Q) := hsumT
  have hidxP3 : traverseOpt durIdx?
      ((adjustedPhases phs T (sumQ ds)).map (finishPhase (sumQ ds2))) = some ds2 := by
    rw [traverseOpt_map]
    have hfn : (fun p => durIdx? (finishPhase (sumQ ds2) p)) = durIdx? :=
      funext (durIdx?_finishPhase (sumQ ds2))
    rw [hfn]
    exact hds2
  have hgetP3 : traverseOpt durGet?
      ((adjustedPhases phs T (sumQ ds)).map (finishPhase (sumQ ds2))) = some ds2 :=
    traverseOpt_of_pointwise (fun a b h => durIdx?_durGet? h) hidxP3
  have hkout : getKey? (finishDict kvs
        ((adjustedPhases phs T (sumQ ds)).map (finishPhase (sumQ ds2))) T) "phases"
      = some (.arr ((((adjustedPhases phs T (sumQ ds)).map
          (finishPhase (sumQ ds2)))).map .obj)) :=
    getKey?_finishDict_phases _ _ _
  have hlenP3 : (((adjustedPhases phs T (sumQ ds)).map
      (finishPhase (sumQ ds2)))).length = ps.length := by
    rw [List.length_map, adjustedPhases_length]
    exact traverseOpt_length hobj
  have hfe : ((((adjustedPhases phs T (sumQ ds)).map
      (finishPhase (sumQ ds2)))).map JValue.obj).isEmpty = false := by
    cases hh : (((adjustedPhases phs T (sumQ ds)).map
        (finishPhase (sumQ ds2)))).map JValue.obj with
    | nil =>
      exfalso
      apply hps
      have hx := congrArg List.length hh
      rw [List.length_map, hlenP3] at hx
      simpa using List.length_eq_zero.mp (by simpa using hx)
    | cons a b => rfl
  have hhk2 : hasKey (finishDict kvs
      ((adjustedPhases phs T (sumQ ds)).map (finishPhase (sumQ ds2))) T) "phases"
      = true := by
    simp [hasKey, hkout]
  have hadj2 : adjustedPhases ((adjustedPhases phs T (sumQ ds)).map
      (finishPhase (sumQ ds2))) T (sumQ ds2) =
      (adjustedPhases phs T (sumQ ds)).map (finishPhase (sumQ ds2)) := by
    rw [hsum_total, adjustedPhases_of_eq]
  have hP3fix : (((adjustedPhases phs T (sumQ ds)).map
      (finishPhase (sumQ ds2)))).map (finishPhase (sumQ ds2)) =
      (adjustedPhases phs T (sumQ ds)).map (finishPhase (sumQ ds2)) := by
    rw [List.map_map]
    simp [Function.comp, finishPhase_idem]
  rw [hout]
  unfold validate_and_clean
  simp only [hhk2, if_true, hkout, Option.getD_some, isFalsy, hfe,
    Bool.false_eq_true, if_false, traverseOpt_map_objs, hgetP3, hadj2, hidxP3,
    if_neg htz, hP3fix, finishDict_idem]

set_option maxRecDepth 100000 in
/-- C9 (witness): a single phase already carrying the target validates
to a fixed point of validation. -/
theorem C9_amended_witness :
    validate_and_clean ((validate_and_clean
        (.obj [("phases", .arr [.obj [("duration_weeks", .num 2)]])])
        2).toOption.getD .null) 2 =
      .ok ((validate_and_clean
        (.obj [("phases", .arr [.obj [("duration_weeks", .num 2)]])])
        2).toOption.getD .null) := by
  have h := C9_amended_idempotent_when_sum_matches
    [("phases", .arr [.obj [("duration_weeks", .num 2)]])]
    [.obj [("duration_weeks", .num 2)]] [[("duration_weeks", .num 2)]] [2] 2 _
    (by decide) rfl (List.cons_ne_nil _ _) rfl rfl rfl (by decide)
  exact h

/-- C10: `to_gantt_data` produces one entry per phase, in order, forming
a contiguous schedule: the first entry starts at 0, each entry's Finish
is its Start plus its Duration, each next entry starts where the
previous finished, and each Duration is the phase's `duration_weeks`
(0 when the field is missing). -/
theorem C10_gantt_contiguous :
    ∀ (v : JValue) (entries : List GanttEntry),
      to_gantt_data v = .ok entries →
      ganttContig 0 entries ∧
      entries.length = (rawPhases v).length ∧
      entries.map (fun e => e.duration) = (rawPhases v).map jDur ∧
      entries.map (fun e => e.task) = (rawPhases v).map jName := by
  intro v entries h
  cases v with
  | obj kvs =>
    have hstep : to_gantt_data (.obj kvs) =
        (match (getKey? kvs "phases").getD (.arr []) with
         | .arr ps => ganttGo 0 ps
         | .str s => if s = "" then .ok [] else .error ()
         | .obj kvs' => if kvs'.isEmpty then .ok [] else .error ()
         | _ => .error ()) := rfl
    rw [hstep] at h
    cases hpv : (getKey? kvs "phases").getD (.arr []) with
    | arr ps =>
      rw [hpv] at h
      have hraw : rawPhases (.obj kvs) = ps := by simp [rawPhases, hpv]
      rw [hraw]
      exact ganttGo_spec ps 0 entries h
    | str s =>
      simp only [hpv] at h
      have hraw : rawPhases (.obj kvs) = [] := by simp [rawPhases, hpv]
      rw [hraw]
      by_cases hs : s = ""
      · rw [if_pos hs] at h
        injection h with h
        subst h
        exact ⟨trivial, rfl, rfl, rfl⟩
      · rw [if_neg hs] at h
        cases h
    | obj kvs' =>
      simp only [hpv] at h
      have hraw : rawPhases (.obj kvs) = [] := by simp [rawPhases, hpv]
      rw [hraw]
      by_cases hk : kvs'.isEmpty
      · rw [if_pos hk] at h
        injection h with h
        subst h
        exact ⟨trivial, rfl, rfl, rfl⟩
      · rw [if_neg hk] at h
        cases h
    | null => simp only [hpv] at h; cases h
    | bool b => simp only [hpv] at h; cases h
    | num q => simp only [hpv] at h; cases h
  | null => cases h
  | bool b => cases h
  | num q => cases h
  | str s => cases h
  | arr xs => cases h

set_option maxRecDepth 100000 in
/-- C10 (witness): a two-phase breakdown yields the contiguous entries
`(0,2)` and `(2,5)`. -/
theorem C10_gantt_witness :
    ganttContig 0 ((to_gantt_data (.obj [("phases", .arr
      [.obj [("duration_weeks", .num 2), ("name", .str "A")],
       .obj [("duration_weeks", .num 3)]])])).toOption.getD []) ∧
    ((to_gantt_data (.obj [("phases", .arr
      [.obj [("duration_weeks", .num 2), ("name", .str "A")],
       .obj [("duration_weeks", .num 3)]])])).toOption.getD []).length = 2 := by
  have h := C10_gantt_contiguous (.obj [("phases", .arr
      [.obj [("duration_weeks", .num 2), ("name", .str "A")],
       .obj [("duration_weeks", .num 3)]])]) _ rfl
  exact ⟨h.1, h.2.1.trans (by decide)⟩

/-! ## Claim theorems -/

set_option maxRecDepth 100000 in
/-- C1 (code bug): the claim says `parse_ai_response` always returns a
complete Breakdown mapping.  On input `{"phases": []}` the JSON is
extracted and truthy, but `_validate_and_clean` line 66 returns the bare
*list* produced by `_create_default_phases` — not a mapping — in
contradiction with the function's own `-> Dict[str, Any]` annotation. -/
theorem C1_returns_bare_list_on_empty_phases :
    parse_ai_response inputEmptyPhases 10 =
      .arr ((create_default_phases 10).map .obj) ∧
    isObjJ (parse_ai_response inputEmptyPhases 10) = false := by
  constructor
  · rfl
  · decide

set_option maxRecDepth 100000 in
/-- C2 (counterexample): for input phases `[1, 1, 1]` and target 10 the
proportional rescale rounds each `10/3` to 3, so the output durations
sum to 9, not to the requested 10. -/
theorem C2_counterexample_sum_drift :
    sumDurations (parse_ai_response inputOnes 10) = 9 ∧
    sumDurations (parse_ai_response inputOnes 10) ≠ ((10 : Int) : Q) := by
  constructor
  · decide
  · decide

set_option maxRecDepth 100000 in
/-- C3 (counterexample): for input durations `[3, 3, 3, 3]` and target
10 each phase rescales to exactly `2.5`, which Python's `round`
(half-to-even) rounds to 2, not 3: the output is `[2, 2, 2, 2]` with sum
8, not `[3, 3, 3, 3]` with sum 12 as the claim states. -/
theorem C3_counterexample_half_even :
    durationsOf (parse_ai_response inputThrees 10) = [2, 2, 2, 2] ∧
    sumDurations (parse_ai_response inputThrees 10) = 8 ∧
    durationsOf (parse_ai_response inputThrees 10) ≠ [3, 3, 3, 3] := by
  refine ⟨by decide, by decide, by decide⟩

set_option maxRecDepth 100000 in
/-- C4 (counterexample): for unparsable input and target 12 the rounded
template weeks `[2, 2, 5, 2, 1]` already sum to 12, so the difference is
zero and the percentages are *not* recomputed from the final week
counts: they remain the template weights `[15, 20, 40, 20, 5]`, although
`2/12*100 ≠ 15`. -/
theorem C4_counterexample_percentages_kept :
    durationsOf (parse_ai_response "" 12) = [2, 2, 5, 2, 1] ∧
    percentagesOf (parse_ai_response "" 12) = [15, 20, 40, 20, 5] ∧
    (15 : Q) ≠ 2 / 12 * 100 := by
  refine ⟨by decide, by decide, by decide⟩

set_option maxRecDepth 100000 in
/-- C5 (counterexample): for three phases with no positive duration and
target 2, every phase receives `max(1, 2 // 3) = 1` week and no phase
loses the extra, so the durations are `[1, 1, 1]` summing to 3 ≠ 2. -/
theorem C5_counterexample_more_phases_than_weeks :
    durationsOf (parse_ai_response inputEmptyDicts 2) = [1, 1, 1] ∧
    sumDurations (parse_ai_response inputEmptyDicts 2) = 3 ∧
    sumDurations (parse_ai_response inputEmptyDicts 2) ≠ ((2 : Int) : Q) := by
  refine ⟨by decide, by decide, by decide⟩

set_option maxRecDepth 100000 in
/-- C6 (counterexample): on the default-template path with target 12 the
percentages stay at the template weights, so the first phase has
`percentage = 15` while `duration/actual_total*100 = 2/12*100 = 50/3`. -/
theorem C6_counterexample_percentage_invariant :
    percentagesOf (parse_ai_response "" 12) = [15, 20, 40, 20, 5] ∧
    durationsOf (parse_ai_response "" 12) = [2, 2, 5, 2, 1] ∧
    sumDurations (parse_ai_response "" 12) = 12 ∧
    (15 : Q) ≠ 2 / sumDurations (parse_ai_response "" 12) * 100 := by
  refine ⟨by decide, by decide, by decide, by decide⟩

set_option maxRecDepth 100000 in
/-- C7 (counterexample): the source tries the basic brace pattern
*before* the fenced patterns.  On `{"x": "a ```json {} ``` b"}` the whole
text is a brace-delimited JSON object, so the code returns the mapping
with key `x`, while the claimed order would return the `{}` inside the
tagged fence first. -/
theorem C7_counterexample_candidate_order :
    optKeys (extract_json_from_response inputFenced) = some ["x"] ∧
    optKeys (specOrderedExtract inputFenced) = some [] ∧
    extract_json_from_response inputFenced ≠ specOrderedExtract inputFenced := by
  refine ⟨by decide, by decide, ?_⟩
  intro h
  have h2 := congrArg optKeys h
  rw [(by decide : optKeys (extract_json_from_response inputFenced) = some ["x"]),
    (by decide : optKeys (specOrderedExtract inputFenced) = some [])] at h2
  exact absurd h2 (by decide)

set_option maxRecDepth 100000 in
/-- C8 (code bug): the claim says the textual-scan fallback names its
phases after the scan-matched candidates.  The third scan pattern has a
single group, so Python's `findall` yields plain strings and the
`match[1]`/`match[0]` indexing takes a single *character*: input
`Phase 1: Alpha` yields a phase named `"l"`, not `"Alpha"`, although the
source's own comment documents the pattern as capturing the name.  The
scan also keeps duplicate matches (no deduplication). -/
theorem C8_scan_name_extraction_bug :
    namesOf (parse_ai_response inputPhaseLine 4) = ["l"] ∧
    durationsOf (parse_ai_response inputPhaseLine 4) = [4] ∧
    namesOf (parse_ai_response inputNumbered 4) = ["Design", "Design"] := by
  refine ⟨by decide, by decide, by decide⟩

set_option maxRecDepth 100000 in
/-- C7 (witness): the corrected candidate order evaluated on a concrete
input. -/
theorem C7_amended_order_witness :
    extract_json_from_response "\x7b\x7d" =
      match firstParsedCandidate (codeOrderedCandidates "\x7b\x7d") with
      | some v => some v
      | none => loads (pyStrip "\x7b\x7d") :=
  C7_amended_extraction_order "\x7b\x7d"
